import Mathlib

/-
Shallow embedding of the pyome limit order book:
  - src/order.py   (class Order: data fields and the same-side ordering contract)
  - src/book.py    (class Book: limit/market matching, tombstone cancel, modify)
  - src/engine.py  (class MatchingEngine: id assignment, guards, dispatch)

Modelling conventions:
  - Python objects are mutable and aliased (an Order sits both in a queue and in
    the engine's orders_map).  We model the object graph as a store
    (`Store := List Order`); a `Nat` index into the store is an object
    reference.  Field assignment becomes a functional update of the store.
  - Python ints are `Int`.  Prices are Python floats that the program only ever
    stores and compares (never does arithmetic on), so they embed faithfully
    into any linear order containing the float values; we use `WithTop ℚ`,
    where `⊤` is the `float("inf")` sentinel default price of market orders.
  - `heapq` is modelled by its documented contract: `queue[0]` is the least
    element under `Order.__lt__`, `heappush` inserts, `heappop` removes the
    least element.  Since `Order.__lt__` is a strict total order on the orders
    of one queue (price, then id), a list kept in ascending order realizes this
    contract: peek = head, pop = tail, push = ordered insert.  The single
    deviation in the program is `Book.modify_order`, which rewrites the id of
    an order that is already inside a queue to -1; heapq leaves the element in
    its place, and so do we (the list is left untouched).  The retagged element
    is always a quantity-0 tombstone, and an id change affects the order only
    among equal-price ties, so the observable behaviour (trades, resting
    decisions, best real prices) is identical to heapq's.
-/

set_option linter.unusedVariables false

namespace Pyome

/-- Side of an order: `Order.Side` in order.py. -/
inductive Side where
  | BUY
  | SELL
  deriving DecidableEq, Repr

/-- Type of an order: `Order.Type` in order.py. -/
inductive OrderType where
  | MARKET
  | LIMIT
  deriving DecidableEq, Repr

/-- Prices: Python floats under comparison only; `⊤` models `float("inf")`. -/
abbrev Price : Type := WithTop ℚ

/-- The `Order` entity of order.py: identity, type, side, mutable quantity,
price, instrument key. -/
structure Order where
  order_id : Int
  order_type : OrderType
  order_side : Side
  quantity : Int
  price : Price
  stock : String
  deriving DecidableEq, Repr

instance : Inhabited Order := ⟨⟨0, .MARKET, .BUY, 0, ⊤, "STOCK"⟩⟩

/-- `Order.__lt__` of order.py: equal prices tie-break by ascending id;
otherwise sells rank by ascending price, buys by descending price.  The Python
method raises when the two sides differ; in the program each queue holds a
single side, so the comparison is only ever invoked on same-side orders, and we
define it by the side of the left operand. -/
def Order.lt (a b : Order) : Bool :=
  if a.price = b.price then a.order_id < b.order_id
  else
    match a.order_side with
    | .SELL => decide (a.price < b.price)
    | .BUY => decide (b.price < a.price)

/-- The store of live Python `Order` objects; a `Nat` is an object reference. -/
abbrev Store := List Order

/-- Dereference an object handle. -/
def getOrd (s : Store) (r : Nat) : Order := s.getD r default

/-- Assign to the `quantity` field of the object at handle `r`. -/
def setQty (s : Store) (r : Nat) (q : Int) : Store :=
  s.set r { getOrd s r with quantity := q }

/-- A trade `(quantity, price)` as returned by the matching functions. -/
abbrev Trade := Int × Price

/-- Crossing predicate for an incoming buy, book.py line 80:
`compare(x, y) = x >= y`. -/
def buyCross : Price → Price → Bool := fun x y => decide (y ≤ x)

/-- Crossing predicate for an incoming sell, book.py line 84:
`compare(x, y) = x <= y`. -/
def sellCross : Price → Price → Bool := fun x y => decide (x ≤ y)

/-- The matching while-loop of `Book.add_limit_order` (book.py lines 89-104),
parameterized by the crossing predicate `cmp` chosen at lines 77-84.  Returns
the updated store, the remaining opposite queue, and the executed trades in
execution order.  The Python loop keeps a `top_order` variable that always
equals `queue[0]` whenever the loop condition is evaluated, so reading the head
afresh is a faithful rendering. -/
def match_loop (cmp : Price → Price → Bool) : Store → List Nat → Nat →
    Store × List Nat × List Trade
  | s, [], _ => (s, [], [])
  | s, top :: rest, oref =>
    let oq := (getOrd s oref).quantity
    let opr := (getOrd s oref).price
    let tq := (getOrd s top).quantity
    let tp := (getOrd s top).price
    if 0 < oq ∧ cmp opr tp = true then
      if tq ≤ oq then
        if 0 < tq then
          -- trade the full top quantity, pop the top
          let res := match_loop cmp (setQty (setQty s oref (oq - tq)) top 0) rest oref
          (res.1, res.2.1, (tq, tp) :: res.2.2)
        else
          -- tombstone: pop and discard without a trade
          match_loop cmp s rest oref
      else
        -- partial fill of the top; the incoming order is exhausted
        (setQty (setQty s top (tq - oq)) oref 0, top :: rest, [(oq, tp)])
    else
      (s, top :: rest, [])

/-- The matching while-loop of `Book.add_market_order` (book.py lines 134-149):
identical to the limit loop except that the condition has no crossing test. -/
def market_loop : Store → List Nat → Nat → Store × List Nat × List Trade
  | s, [], _ => (s, [], [])
  | s, top :: rest, oref =>
    let oq := (getOrd s oref).quantity
    let tq := (getOrd s top).quantity
    let tp := (getOrd s top).price
    if 0 < oq then
      if tq ≤ oq then
        if 0 < tq then
          let res := market_loop (setQty (setQty s oref (oq - tq)) top 0) rest oref
          (res.1, res.2.1, (tq, tp) :: res.2.2)
        else
          market_loop s rest oref
      else
        (setQty (setQty s top (tq - oq)) oref 0, top :: rest, [(oq, tp)])
    else
      (s, top :: rest, [])

/-- `heapq.heappush` under the heap contract: ordered insertion by
`Order.__lt__`. -/
def insert_ord (s : Store) : List Nat → Nat → List Nat
  | [], o => [o]
  | x :: xs, o =>
    if (getOrd s o).lt (getOrd s x) then o :: x :: xs else x :: insert_ord s xs o

/-- The `Book` of book.py together with the store of order objects it touches.
`sell_queue` is the min-heap of asks, `buy_queue` the max-heap of bids (both
realized as lists ordered by `Order.__lt__`, least first). -/
structure BookSt where
  stock : String
  orders : Store
  sell_queue : List Nat
  buy_queue : List Nat
  deriving DecidableEq, Repr

/-- `Book.add_limit_order` (book.py lines 53-110): match against the opposite
queue, then insert the incoming order into its own queue iff it still has
positive quantity. -/
def add_limit_order (b : BookSt) (oref : Nat) : BookSt × List Trade :=
  match (getOrd b.orders oref).order_side with
  | .BUY =>
    let res := match_loop buyCross b.orders b.sell_queue oref
    let b1 : BookSt := { b with orders := res.1, sell_queue := res.2.1 }
    if 0 < (getOrd b1.orders oref).quantity then
      ({ b1 with buy_queue := insert_ord b1.orders b1.buy_queue oref }, res.2.2)
    else
      (b1, res.2.2)
  | .SELL =>
    let res := match_loop sellCross b.orders b.buy_queue oref
    let b1 : BookSt := { b with orders := res.1, buy_queue := res.2.1 }
    if 0 < (getOrd b1.orders oref).quantity then
      ({ b1 with sell_queue := insert_ord b1.orders b1.sell_queue oref }, res.2.2)
    else
      (b1, res.2.2)

/-- `Book.add_market_order` (book.py lines 112-150): match against the opposite
queue; the market order is never inserted into a queue. -/
def add_market_order (b : BookSt) (oref : Nat) : BookSt × List Trade :=
  match (getOrd b.orders oref).order_side with
  | .BUY =>
    let res := market_loop b.orders b.sell_queue oref
    ({ b with orders := res.1, sell_queue := res.2.1 }, res.2.2)
  | .SELL =>
    let res := market_loop b.orders b.buy_queue oref
    ({ b with orders := res.1, buy_queue := res.2.1 }, res.2.2)

/-- `Book.add_order` (book.py lines 28-51): create the order object and run it
through the limit or the market path.  The created object is always the first
component of the Python return value; here its store reference is returned. -/
def add_order (b : BookSt) (order_id : Int) (t : OrderType) (sd : Side)
    (quantity : Int) (price : Price) (stock : String) :
    BookSt × Nat × List Trade :=
  let oref := b.orders.length
  let b0 : BookSt :=
    { b with orders := b.orders ++ [⟨order_id, t, sd, quantity, price, stock⟩] }
  match t with
  | .LIMIT =>
    let res := add_limit_order b0 oref
    (res.1, oref, res.2)
  | .MARKET =>
    let res := add_market_order b0 oref
    (res.1, oref, res.2)

/-- `Book.delete_order` (book.py lines 153-167): set the order's quantity to 0;
the queues are not touched. -/
def delete_order (b : BookSt) (oref : Nat) : BookSt :=
  { b with orders := setQty b.orders oref 0 }

/-- `Book.modify_order` (book.py lines 169-207): hand the original id to the
replacement, retag the existing order's id to -1, tombstone it, and resubmit
through `add_order` with the new quantity and price. -/
def modify_order (b : BookSt) (oref : Nat) (quantity : Int) (price : Price) :
    BookSt × Nat × List Trade :=
  let o := getOrd b.orders oref
  let new_order_id := o.order_id
  let b1 : BookSt := { b with orders := b.orders.set oref { o with order_id := -1 } }
  let b2 := delete_order b1 oref
  add_order b2 new_order_id o.order_type o.order_side quantity price o.stock

/-- One rendered row of `Book.__repr__`: quantity, price, id. -/
abbrev Row := Int × Price × Int

/-- The rows of one column of `Book.__repr__` (book.py lines 248-272): pop the
copied queue in priority order, skipping entries with quantity <= 0.  The live
queues are not mutated. -/
def render_rows (s : Store) (queue : List Nat) : List Row :=
  (queue.filter (fun r => 0 < (getOrd s r).quantity)).map
    (fun r => ((getOrd s r).quantity, (getOrd s r).price, (getOrd s r).order_id))

/-- `Book.__repr__` as data: the buy column and the sell column. -/
def render_book (b : BookSt) : List Row × List Row :=
  (render_rows b.orders b.buy_queue, render_rows b.orders b.sell_queue)

/-- Post-parse commands of `MatchingEngine.parse_and_execute` (engine.py). -/
inductive Op where
  | limit (side : Side) (price : Price) (quantity : Int)
  | market (side : Side) (quantity : Int)
  | cancel (order_id : Int)
  | modify (order_id : Int) (price : Price) (quantity : Int)
  | render
  deriving DecidableEq, Repr

/-- The `MatchingEngine` state: the uid counter, the (single) book together
with its object store, and the id-to-order registry `orders_map`. -/
structure EngSt where
  uid : Int
  book : BookSt
  orders_map : List (Int × Nat)
  deriving DecidableEq, Repr

/-- Registry lookup (`self.orders_map[order_id]`); the newest binding of a key
shadows older ones, as in a Python dict. -/
def lookupMap : List (Int × Nat) → Int → Option Nat
  | [], _ => none
  | (i, r) :: rest, k => if i = k then some r else lookupMap rest k

/-- The fresh engine of `MatchingEngine.__init__`. -/
def initEng : EngSt := ⟨0, ⟨"STOCK", [], [], []⟩, []⟩

/-- One command of `MatchingEngine.parse_and_execute` (engine.py lines 89-218),
with the engine's own guards: quantity 0 is rejected, cancel/modify of an
unknown or inactive (quantity 0) order is a no-op.  Negative quantities pass
the `quantity == 0` guard, exactly as in the Python code. -/
def step (st : EngSt) (o : Op) : EngSt :=
  match o with
  | .limit sd p q =>
    if q = 0 then st
    else
      let oid := st.uid + 1
      let res := add_order st.book oid .LIMIT sd q p "STOCK"
      { uid := oid, book := res.1, orders_map := (oid, res.2.1) :: st.orders_map }
  | .market sd q =>
    if q = 0 then st
    else
      let oid := st.uid + 1
      let res := add_order st.book oid .MARKET sd q ⊤ "STOCK"
      -- "A market order has no reason to exist after executed." (engine.py 140)
      { uid := oid, book := delete_order res.1 res.2.1,
        orders_map := (oid, res.2.1) :: st.orders_map }
  | .cancel i =>
    match lookupMap st.orders_map i with
    | none => st
    | some r =>
      if (getOrd st.book.orders r).quantity = 0 then st
      else { st with book := delete_order st.book r }
  | .modify i p q =>
    if q = 0 then st
    else
      match lookupMap st.orders_map i with
      | none => st
      | some r =>
        if (getOrd st.book.orders r).quantity = 0 then st
        else
          let res := modify_order st.book r q p
          { st with book := res.1, orders_map := (i, res.2.1) :: st.orders_map }
  | .render => st

/-- Run a command sequence from the fresh engine. -/
def run (ops : List Op) : EngSt := ops.foldl step initEng

/-! ### Store lemmas -/

theorem length_setQty (s : Store) (r : Nat) (q : Int) :
    (setQty s r q).length = s.length :=
  List.length_set ..

theorem setQty_oob {s : Store} {r : Nat} {q : Int} (h : s.length ≤ r) :
    setQty s r q = s :=
  List.set_eq_of_length_le h

theorem getOrd_oob {s : Store} {r : Nat} (h : s.length ≤ r) : getOrd s r = default :=
  List.getD_eq_default _ _ h

theorem getOrd_setQty_self {s : Store} {r : Nat} {q : Int} (h : r < s.length) :
    getOrd (setQty s r q) r = { getOrd s r with quantity := q } := by
  unfold getOrd setQty
  rw [List.getD_eq_getElem _ _ (by simpa using h), List.getElem_set_self]
  rfl

theorem getOrd_setQty_ne {s : Store} {r t : Nat} {q : Int} (h : t ≠ r) :
    getOrd (setQty s r q) t = getOrd s t := by
  unfold getOrd setQty
  by_cases ht : t < s.length
  · rw [List.getD_eq_getElem _ _ (by simpa using ht),
      List.getElem_set_ne (Ne.symm h), List.getD_eq_getElem _ _ ht]
  · rw [List.getD_eq_default _ _ (by simpa using Nat.le_of_not_lt ht),
      List.getD_eq_default _ _ (Nat.le_of_not_lt ht)]

theorem getOrd_set_self {s : Store} {r : Nat} {x : Order} (h : r < s.length) :
    getOrd (s.set r x) r = x := by
  unfold getOrd
  rw [List.getD_eq_getElem _ _ (by simpa using h), List.getElem_set_self]

theorem getOrd_set_ne {s : Store} {r t : Nat} {x : Order} (h : t ≠ r) :
    getOrd (s.set r x) t = getOrd s t := by
  unfold getOrd
  by_cases ht : t < s.length
  · rw [List.getD_eq_getElem _ _ (by simpa using ht),
      List.getElem_set_ne (Ne.symm h), List.getD_eq_getElem _ _ ht]
  · rw [List.getD_eq_default _ _ (by simpa using Nat.le_of_not_lt ht),
      List.getD_eq_default _ _ (Nat.le_of_not_lt ht)]

theorem quantity_setQty_self {s : Store} {r : Nat} {q : Int} (h : r < s.length) :
    (getOrd (setQty s r q) r).quantity = q := by
  rw [getOrd_setQty_self h]

/-- All fields except `quantity` survive a quantity assignment, at every handle. -/
theorem fields_setQty (s : Store) (r : Nat) (q : Int) (t : Nat) :
    (getOrd (setQty s r q) t).order_id = (getOrd s t).order_id ∧
    (getOrd (setQty s r q) t).order_type = (getOrd s t).order_type ∧
    (getOrd (setQty s r q) t).order_side = (getOrd s t).order_side ∧
    (getOrd (setQty s r q) t).price = (getOrd s t).price ∧
    (getOrd (setQty s r q) t).stock = (getOrd s t).stock := by
  by_cases ht : t = r
  · subst ht
    by_cases h : t < s.length
    · rw [getOrd_setQty_self h]; exact ⟨rfl, rfl, rfl, rfl, rfl⟩
    · rw [setQty_oob (Nat.le_of_not_lt h)]; exact ⟨rfl, rfl, rfl, rfl, rfl⟩
  · rw [getOrd_setQty_ne ht]; exact ⟨rfl, rfl, rfl, rfl, rfl⟩

theorem id_setQty (s : Store) (r : Nat) (q : Int) (t : Nat) :
    (getOrd (setQty s r q) t).order_id = (getOrd s t).order_id :=
  (fields_setQty s r q t).1

theorem getOrd_append_lt {s : Store} {o : Order} {r : Nat} (h : r < s.length) :
    getOrd (s ++ [o]) r = getOrd s r :=
  List.getD_append _ _ _ _ h

theorem getOrd_append_self (s : Store) (o : Order) :
    getOrd (s ++ [o]) s.length = o := by
  unfold getOrd
  rw [List.getD_append_right _ _ _ _ (Nat.le_refl _), Nat.sub_self]
  rfl

/-! ### Matching-loop lemmas -/

theorem match_loop_nil (cmp : Price → Price → Bool) (s : Store) (o : Nat) :
    match_loop cmp s [] o = (s, [], []) := rfl

theorem match_loop_cons (cmp : Price → Price → Bool) (s : Store) (top : Nat)
    (rest : List Nat) (oref : Nat) :
    match_loop cmp s (top :: rest) oref =
      (if 0 < (getOrd s oref).quantity ∧
          cmp (getOrd s oref).price (getOrd s top).price = true then
        if (getOrd s top).quantity ≤ (getOrd s oref).quantity then
          if 0 < (getOrd s top).quantity then
            let res := match_loop cmp
              (setQty (setQty s oref
                ((getOrd s oref).quantity - (getOrd s top).quantity)) top 0) rest oref
            (res.1, res.2.1, ((getOrd s top).quantity, (getOrd s top).price) :: res.2.2)
          else
            match_loop cmp s rest oref
        else
          (setQty (setQty s top ((getOrd s top).quantity - (getOrd s oref).quantity))
            oref 0, top :: rest, [((getOrd s oref).quantity, (getOrd s top).price)])
      else
        (s, top :: rest, [])) := rfl

/-- The store returned by the matching loop has the same length. -/
theorem match_loop_length (cmp : Price → Price → Bool) (l : List Nat) (s : Store)
    (o : Nat) : ((match_loop cmp s l o).1).length = s.length := by
  induction l generalizing s with
  | nil => rfl
  | cons top rest ih =>
    rw [match_loop_cons]
    split_ifs <;> simp [ih, length_setQty]

/-- The matching loop mutates only `quantity` fields: every other field of every
order object is unchanged. -/
theorem match_loop_fields (cmp : Price → Price → Bool) (l : List Nat) (s : Store)
    (o : Nat) (r : Nat) :
    (getOrd (match_loop cmp s l o).1 r).order_id = (getOrd s r).order_id ∧
    (getOrd (match_loop cmp s l o).1 r).order_type = (getOrd s r).order_type ∧
    (getOrd (match_loop cmp s l o).1 r).order_side = (getOrd s r).order_side ∧
    (getOrd (match_loop cmp s l o).1 r).price = (getOrd s r).price ∧
    (getOrd (match_loop cmp s l o).1 r).stock = (getOrd s r).stock := by
  induction l generalizing s with
  | nil => exact ⟨rfl, rfl, rfl, rfl, rfl⟩
  | cons top rest ih =>
    rw [match_loop_cons]
    split_ifs with h1 h2 h3
    · obtain ⟨h1, h2, h3, h4, h5⟩ := ih (setQty (setQty s o
        ((getOrd s o).quantity - (getOrd s top).quantity)) top 0)
      obtain ⟨g1, g2, g3, g4, g5⟩ := fields_setQty (setQty s o
        ((getOrd s o).quantity - (getOrd s top).quantity)) top 0 r
      obtain ⟨f1, f2, f3, f4, f5⟩ := fields_setQty s o
        ((getOrd s o).quantity - (getOrd s top).quantity) r
      exact ⟨h1.trans (g1.trans f1), h2.trans (g2.trans f2), h3.trans (g3.trans f3),
        h4.trans (g4.trans f4), h5.trans (g5.trans f5)⟩
    · exact ih s
    · obtain ⟨g1, g2, g3, g4, g5⟩ := fields_setQty (setQty s top
        ((getOrd s top).quantity - (getOrd s o).quantity)) o 0 r
      obtain ⟨f1, f2, f3, f4, f5⟩ := fields_setQty s top
        ((getOrd s top).quantity - (getOrd s o).quantity) r
      exact ⟨g1.trans f1, g2.trans f2, g3.trans f3, g4.trans f4, g5.trans f5⟩
    · exact ⟨rfl, rfl, rfl, rfl, rfl⟩

/-- The queue returned by the matching loop is a suffix of the input queue:
the loop only pops from the front. -/
theorem match_loop_suffix (cmp : Price → Price → Bool) (l : List Nat) (s : Store)
    (o : Nat) : (match_loop cmp s l o).2.1 <:+ l := by
  induction l generalizing s with
  | nil => exact List.nil_suffix
  | cons top rest ih =>
    rw [match_loop_cons]
    split_ifs <;>
      first
        | (exact List.suffix_refl _)
        | (exact ((ih _).trans (List.suffix_cons top rest)))

/-- A handle whose order has nonzero quantity is a live store index (the
out-of-range default order has quantity 0). -/
theorem lt_length_of_qty_ne {s : Store} {r : Nat}
    (h : (getOrd s r).quantity ≠ 0) : r < s.length := by
  by_contra hc
  rw [getOrd_oob (Nat.le_of_not_lt hc)] at h
  exact h rfl

theorem lt_length_of_qty_pos {s : Store} {r : Nat}
    (h : 0 < (getOrd s r).quantity) : r < s.length :=
  lt_length_of_qty_ne (by omega)

/-- Matching never increases any order's quantity. -/
theorem match_loop_qty_le (cmp : Price → Price → Bool) (l : List Nat) (s : Store)
    (o : Nat) (r : Nat) :
    (getOrd (match_loop cmp s l o).1 r).quantity ≤ (getOrd s r).quantity := by
  induction l generalizing s with
  | nil => exact le_refl _
  | cons top rest ih =>
    rw [match_loop_cons]
    split_ifs with h1 h2 h3
    · refine le_trans (ih _) ?_
      have htop : top < s.length := lt_length_of_qty_pos h3
      have ho : o < s.length := lt_length_of_qty_pos h1.1
      by_cases hrt : r = top
      · subst hrt
        rw [quantity_setQty_self (by rw [length_setQty]; exact htop)]
        omega
      · rw [getOrd_setQty_ne hrt]
        by_cases hro : r = o
        · subst hro
          rw [quantity_setQty_self ho]
          omega
        · rw [getOrd_setQty_ne hro]
    · exact ih s
    · have htop : top < s.length := lt_length_of_qty_pos (by omega)
      have ho : o < s.length := lt_length_of_qty_pos h1.1
      by_cases hro : r = o
      · subst hro
        rw [quantity_setQty_self (by rw [length_setQty]; exact ho)]
        omega
      · rw [getOrd_setQty_ne hro]
        by_cases hrt : r = top
        · subst hrt
          rw [quantity_setQty_self htop]
          omega
        · rw [getOrd_setQty_ne hrt]
    · exact le_refl _

/-- Total of the trade quantities of a matching result. -/
def sumQ (ts : List Trade) : Int := (ts.map Prod.fst).sum

theorem sumQ_nil : sumQ [] = 0 := rfl

theorem sumQ_cons (t : Trade) (ts : List Trade) : sumQ (t :: ts) = t.1 + sumQ ts := by
  unfold sumQ
  rw [List.map_cons, List.sum_cons]

/-- Conservation inside the matching loop: the traded total plus the incoming
order's remaining quantity equals its quantity on entry. -/
theorem match_loop_conserve (cmp : Price → Price → Bool) (l : List Nat) (s : Store)
    (o : Nat) (ho : o ∉ l) :
    sumQ (match_loop cmp s l o).2.2 + (getOrd (match_loop cmp s l o).1 o).quantity
      = (getOrd s o).quantity := by
  induction l generalizing s with
  | nil =>
    show sumQ [] + (getOrd s o).quantity = (getOrd s o).quantity
    rw [sumQ_nil]; omega
  | cons top rest ih =>
    have hot : o ≠ top := fun h => ho (h ▸ List.mem_cons_self top rest)
    have horest : o ∉ rest := fun h => ho (List.mem_cons_of_mem top h)
    rw [match_loop_cons]
    split_ifs with h1 h2 h3
    · dsimp only
      have hol : o < s.length := lt_length_of_qty_pos h1.1
      have ihr := ih (setQty (setQty s o
        ((getOrd s o).quantity - (getOrd s top).quantity)) top 0) horest
      rw [getOrd_setQty_ne hot, quantity_setQty_self hol] at ihr
      rw [sumQ_cons]
      omega
    · exact ih s horest
    · dsimp only
      have hol : o < (setQty s top
        ((getOrd s top).quantity - (getOrd s o).quantity)).length := by
        rw [length_setQty]; exact lt_length_of_qty_pos h1.1
      rw [sumQ_cons, sumQ_nil, quantity_setQty_self hol]
      omega
    · dsimp only
      rw [sumQ_nil]; omega

/-- The incoming order's quantity stays nonnegative through matching. -/
theorem match_loop_qty_nonneg (cmp : Price → Price → Bool) (l : List Nat)
    (s : Store) (o : Nat) (ho : o ∉ l) (h0 : 0 ≤ (getOrd s o).quantity) :
    0 ≤ (getOrd (match_loop cmp s l o).1 o).quantity := by
  induction l generalizing s with
  | nil => exact h0
  | cons top rest ih =>
    have hot : o ≠ top := fun h => ho (h ▸ List.mem_cons_self top rest)
    have horest : o ∉ rest := fun h => ho (List.mem_cons_of_mem top h)
    rw [match_loop_cons]
    split_ifs with h1 h2 h3
    · refine ih _ horest ?_
      have hol : o < s.length := lt_length_of_qty_pos h1.1
      rw [getOrd_setQty_ne hot, quantity_setQty_self hol]
      omega
    · exact ih s horest h0
    · have hol : o < (setQty s top
        ((getOrd s top).quantity - (getOrd s o).quantity)).length := by
        rw [length_setQty]; exact lt_length_of_qty_pos h1.1
      show (0:Int) ≤ (getOrd (setQty (setQty s top
        ((getOrd s top).quantity - (getOrd s o).quantity)) o 0) o).quantity
      rw [quantity_setQty_self hol]
    · exact h0

/-- When the loop leaves the opposite queue non-empty, the loop condition fails
on its head: the incoming order is exhausted or the head does not cross. -/
theorem match_loop_stop (cmp : Price → Price → Bool) (l : List Nat) (s : Store)
    (o : Nat) :
    ∀ h t, (match_loop cmp s l o).2.1 = h :: t →
      ¬(0 < (getOrd (match_loop cmp s l o).1 o).quantity ∧
        cmp (getOrd (match_loop cmp s l o).1 o).price
          (getOrd (match_loop cmp s l o).1 h).price = true) := by
  induction l generalizing s with
  | nil => intro h t hq; exact absurd hq (by simp [match_loop_nil])
  | cons top rest ih =>
    rw [match_loop_cons]
    split_ifs with h1 h2 h3
    · exact ih _
    · exact ih s
    · intro h t hq hcon
      have hol : o < (setQty s top
        ((getOrd s top).quantity - (getOrd s o).quantity)).length := by
        rw [length_setQty]; exact lt_length_of_qty_pos h1.1
      rw [quantity_setQty_self hol] at hcon
      exact absurd hcon.1 (by omega)
    · intro h t hq hcon
      have hh : h = top := by
        have := hq
        injection this with h1' h2'
        exact h1'.symm
      subst hh
      exact h1 hcon

/-- Order objects neither in the scanned queue nor the incoming order are not
touched at all by the matching loop. -/
theorem match_loop_untouched (cmp : Price → Price → Bool) (l : List Nat)
    (s : Store) (o : Nat) (r : Nat) (hr : r ∉ l) (hro : r ≠ o) :
    getOrd (match_loop cmp s l o).1 r = getOrd s r := by
  induction l generalizing s with
  | nil => rfl
  | cons top rest ih =>
    have hrt : r ≠ top := fun h => hr (h ▸ List.mem_cons_self top rest)
    have hrrest : r ∉ rest := fun h => hr (List.mem_cons_of_mem top h)
    rw [match_loop_cons]
    split_ifs with h1 h2 h3
    · dsimp only
      rw [ih _ hrrest, getOrd_setQty_ne hrt, getOrd_setQty_ne hro]
    · exact ih s hrrest
    · dsimp only
      rw [getOrd_setQty_ne hro, getOrd_setQty_ne hrt]
    · rfl

/-- Matching preserves the tombstone discipline for retagged orders: an order
whose id is -1 has quantity 0 before and after, provided the incoming order is
not itself retagged. -/
theorem match_loop_negid (cmp : Price → Price → Bool) (l : List Nat) (s : Store)
    (o : Nat)
    (hneg : ∀ r, r < s.length → (getOrd s r).order_id = -1 →
      (getOrd s r).quantity = 0)
    (ho : (getOrd s o).order_id ≠ -1) :
    ∀ r, r < ((match_loop cmp s l o).1).length →
      (getOrd (match_loop cmp s l o).1 r).order_id = -1 →
        (getOrd (match_loop cmp s l o).1 r).quantity = 0 := by
  induction l generalizing s with
  | nil => exact hneg
  | cons top rest ih =>
    rw [match_loop_cons]
    split_ifs with h1 h2 h3
    · dsimp only
      have htl : top < s.length := lt_length_of_qty_pos h3
      have hol : o < s.length := lt_length_of_qty_pos h1.1
      have htid : (getOrd s top).order_id ≠ -1 := by
        intro hc
        have := hneg top htl hc
        omega
      have idpres : ∀ u : Nat, (getOrd (setQty (setQty s o
          ((getOrd s o).quantity - (getOrd s top).quantity)) top 0) u).order_id
          = (getOrd s u).order_id := fun u =>
        (id_setQty _ top 0 u).trans (id_setQty s o _ u)
      refine ih _ ?_ ?_
      · intro r hrl hrid
        rw [length_setQty, length_setQty] at hrl
        rw [idpres r] at hrid
        have hrt : r ≠ top := fun h => htid (h ▸ hrid)
        have hro : r ≠ o := fun h => ho (h ▸ hrid)
        rw [getOrd_setQty_ne hrt, getOrd_setQty_ne hro]
        exact hneg r hrl hrid
      · rw [idpres o]
        exact ho
    · exact ih s hneg ho
    · dsimp only
      intro r hrl hrid
      rw [length_setQty, length_setQty] at hrl
      have hol : o < s.length := lt_length_of_qty_pos h1.1
      have htl : top < s.length := lt_length_of_qty_pos (by omega)
      have htid : (getOrd s top).order_id ≠ -1 := by
        intro hc
        have := hneg top htl hc
        omega
      have idpres : ∀ u : Nat, (getOrd (setQty (setQty s top
          ((getOrd s top).quantity - (getOrd s o).quantity)) o 0) u).order_id
          = (getOrd s u).order_id := fun u =>
        (id_setQty _ o 0 u).trans (id_setQty s top _ u)
      rw [idpres r] at hrid
      have hro : r ≠ o := fun h => ho (h ▸ hrid)
      have hrt : r ≠ top := fun h => htid (h ▸ hrid)
      rw [getOrd_setQty_ne hro, getOrd_setQty_ne hrt]
      exact hneg r hrl hrid
    · exact hneg

/-- Every recorded trade has a positive quantity: tombstones never trade. -/
theorem match_loop_trades_pos (cmp : Price → Price → Bool) (l : List Nat)
    (s : Store) (o : Nat) :
    ∀ t ∈ (match_loop cmp s l o).2.2, 0 < t.1 := by
  induction l generalizing s with
  | nil => intro t ht; exact absurd ht (by simp [match_loop_nil])
  | cons top rest ih =>
    rw [match_loop_cons]
    split_ifs with h1 h2 h3
    · dsimp only
      intro t ht
      rcases List.mem_cons.mp ht with h | h
      · subst h; exact h3
      · exact ih _ t h
    · exact ih s
    · dsimp only
      intro t ht
      rcases List.mem_cons.mp ht with h | h
      · subst h; exact h1.1
      · exact absurd h (List.not_mem_nil t)
    · intro t ht; exact absurd ht (List.not_mem_nil t)

/-- Queue-order priority inside the matching loop: if an order deeper in the
queue had its quantity reduced, every real order ahead of it ended fully
filled. -/
theorem match_loop_priority (cmp : Price → Price → Bool) (l : List Nat)
    (s : Store) (o : Nat) (hnd : l.Nodup) (ho : o ∉ l) (a b : Nat)
    (hab : List.Sublist [a, b] l)
    (hb : (getOrd (match_loop cmp s l o).1 b).quantity < (getOrd s b).quantity)
    (ha : 0 < (getOrd s a).quantity) :
    (getOrd (match_loop cmp s l o).1 a).quantity = 0 := by
  induction l generalizing s with
  | nil => exact absurd hab (by simp)
  | cons top rest ih =>
    have htop : top ∉ rest := (List.nodup_cons.mp hnd).1
    have hndr : rest.Nodup := (List.nodup_cons.mp hnd).2
    have hot : o ≠ top := fun h => ho (h ▸ List.mem_cons_self top rest)
    have horest : o ∉ rest := fun h => ho (List.mem_cons_of_mem top h)
    rw [match_loop_cons] at hb ⊢
    split_ifs at hb ⊢ with h1 h2 h3
    · dsimp only at hb ⊢
      have htl : top < s.length := lt_length_of_qty_pos h3
      have hol : o < s.length := lt_length_of_qty_pos h1.1
      cases hab with
      | cons₂ _ hbs =>
        -- here a is the head of the queue: it is zeroed and never touched again
        have hba := match_loop_untouched cmp rest
          (setQty (setQty s o ((getOrd s o).quantity - (getOrd s a).quantity))
            a 0) o a htop (Ne.symm hot)
        rw [hba, quantity_setQty_self (by rw [length_setQty]; exact htl)]
      | cons _ hbs =>
        have hbr : b ∈ rest := hbs.subset (by simp)
        have har : a ∈ rest := hbs.subset (by simp)
        have hbt : b ≠ top := fun h => htop (h ▸ hbr)
        have hat : a ≠ top := fun h => htop (h ▸ har)
        have hbo : b ≠ o := fun h => horest (h ▸ hbr)
        have hao : a ≠ o := fun h => horest (h ▸ har)
        refine ih _ hndr horest hbs ?_ ?_
        · rw [getOrd_setQty_ne hbt, getOrd_setQty_ne hbo]
          exact hb
        · rw [getOrd_setQty_ne hat, getOrd_setQty_ne hao]
          exact ha
    · cases hab with
      | cons₂ _ hbs =>
        exact absurd ha h3
      | cons _ hbs =>
        exact ih _ hndr horest hbs hb ha
    · dsimp only at hb ⊢
      have hol : o < s.length := lt_length_of_qty_pos h1.1
      cases hab with
      | cons₂ _ hbs =>
        have hbr : b ∈ rest := hbs.subset (by simp)
        have hbt : b ≠ a := fun h => htop (h ▸ hbr)
        have hbo : b ≠ o := fun h => horest (h ▸ hbr)
        rw [getOrd_setQty_ne hbo, getOrd_setQty_ne hbt] at hb
        omega
      | cons _ hbs =>
        have hbr : b ∈ rest := hbs.subset (by simp)
        have hbt : b ≠ top := fun h => htop (h ▸ hbr)
        have hbo : b ≠ o := fun h => horest (h ▸ hbr)
        rw [getOrd_setQty_ne hbo, getOrd_setQty_ne hbt] at hb
        omega
    · dsimp only at hb
      omega

/-- Provenance of every trade of the matching loop: trade `i` is executed
against a pre-existing opposite resting order `r` that is real (positive
quantity) at call entry; the trade is priced at `r`'s price and its quantity is
the minimum of the incoming order's remaining quantity at that moment (its
entry quantity minus the previously traded total) and `r`'s quantity. -/
theorem match_loop_trades_src (cmp : Price → Price → Bool) (l : List Nat)
    (s : Store) (o : Nat) (hnd : l.Nodup) (ho : o ∉ l) :
    ∀ i t, (match_loop cmp s l o).2.2[i]? = some t →
      ∃ r, r ∈ l ∧ 0 < (getOrd s r).quantity ∧ t.2 = (getOrd s r).price ∧
        t.1 = min ((getOrd s o).quantity -
          sumQ ((match_loop cmp s l o).2.2.take i)) ((getOrd s r).quantity) := by
  induction l generalizing s with
  | nil =>
    intro i t ht
    rw [match_loop_nil] at ht
    exact absurd ht (by simp)
  | cons top rest ih =>
    have htop : top ∉ rest := (List.nodup_cons.mp hnd).1
    have hndr : rest.Nodup := (List.nodup_cons.mp hnd).2
    have hot : o ≠ top := fun h => ho (h ▸ List.mem_cons_self top rest)
    have horest : o ∉ rest := fun h => ho (List.mem_cons_of_mem top h)
    rw [match_loop_cons]
    split_ifs with h1 h2 h3
    · dsimp only
      have htl : top < s.length := lt_length_of_qty_pos h3
      have hol : o < s.length := lt_length_of_qty_pos h1.1
      intro i t ht
      rcases i with _ | k
      · rw [List.getElem?_cons_zero] at ht
        obtain rfl : ((getOrd s top).quantity, (getOrd s top).price) = t :=
          Option.some_injective _ ht
        refine ⟨top, List.mem_cons_self _ _, h3, rfl, ?_⟩
        show (getOrd s top).quantity =
          min ((getOrd s o).quantity - sumQ []) ((getOrd s top).quantity)
        rw [sumQ_nil]
        omega
      · rw [List.getElem?_cons_succ] at ht
        obtain ⟨r, hrmem, hrq, hrp, hrqty⟩ := ih _ hndr horest k t ht
        have hrt : r ≠ top := fun h => htop (h ▸ hrmem)
        have hro : r ≠ o := fun h => horest (h ▸ hrmem)
        have hgr : getOrd (setQty (setQty s o
            ((getOrd s o).quantity - (getOrd s top).quantity)) top 0) r
            = getOrd s r := by
          rw [getOrd_setQty_ne hrt, getOrd_setQty_ne hro]
        have hgo : (getOrd (setQty (setQty s o
            ((getOrd s o).quantity - (getOrd s top).quantity)) top 0) o).quantity
            = (getOrd s o).quantity - (getOrd s top).quantity := by
          rw [getOrd_setQty_ne hot, quantity_setQty_self hol]
        rw [hgr] at hrq hrp hrqty
        rw [hgo] at hrqty
        refine ⟨r, List.mem_cons_of_mem _ hrmem, hrq, hrp, ?_⟩
        rw [List.take_succ_cons, sumQ_cons, hrqty]
        congr 1
        omega
    · intro i t ht
      obtain ⟨r, hrmem, hrq, hrp, hrqty⟩ := ih s hndr horest i t ht
      exact ⟨r, List.mem_cons_of_mem _ hrmem, hrq, hrp, hrqty⟩
    · dsimp only
      intro i t ht
      rcases i with _ | k
      · rw [List.getElem?_cons_zero] at ht
        obtain rfl : ((getOrd s o).quantity, (getOrd s top).price) = t :=
          Option.some_injective _ ht
        have htq : 0 < (getOrd s top).quantity := by omega
        refine ⟨top, List.mem_cons_self _ _, htq, rfl, ?_⟩
        show (getOrd s o).quantity =
          min ((getOrd s o).quantity - sumQ []) ((getOrd s top).quantity)
        rw [sumQ_nil]
        omega
      · rw [List.getElem?_cons_succ] at ht
        exact absurd ht (by simp)
    · intro i t ht
      exact absurd ht (by simp)

/-! ### Queue-order relations and ordered insertion -/

/-- Weak price priority along a queue: later entries have a price no better
than earlier ones (asks ascend, bids descend). -/
def priceLE (sd : Side) (x y : Price) : Prop :=
  match sd with
  | .SELL => x ≤ y
  | .BUY => y ≤ x

/-- Strict price priority for one side. -/
def priceLT (sd : Side) (x y : Price) : Prop :=
  match sd with
  | .SELL => x < y
  | .BUY => y < x

theorem priceLE_refl (sd : Side) (x : Price) : priceLE sd x x := by
  cases sd <;> exact le_refl x

theorem priceLE_of_eq (sd : Side) {x y : Price} (h : x = y) : priceLE sd x y := by
  cases sd <;> exact le_of_eq (by rw [h])

theorem priceLE_of_not_lt (sd : Side) {x y : Price} (h : ¬ priceLT sd x y) :
    priceLE sd y x := by
  cases sd <;> exact le_of_not_lt h

theorem priceLE_trans (sd : Side) {x y z : Price} (h1 : priceLE sd x y)
    (h2 : priceLE sd y z) : priceLE sd x z := by
  cases sd
  · exact le_trans h2 h1
  · exact le_trans h1 h2

theorem priceLE_of_lt (sd : Side) {x y : Price} (h : priceLT sd x y) :
    priceLE sd x y := by
  cases sd <;> exact le_of_lt h

theorem priceLT_of_lt_of_le (sd : Side) {x y z : Price} (h1 : priceLT sd x y)
    (h2 : priceLE sd y z) : priceLT sd x z := by
  cases sd
  · exact lt_of_le_of_lt h2 h1
  · exact lt_of_lt_of_le h1 h2

theorem priceLT_irrefl (sd : Side) (x : Price) : ¬ priceLT sd x x := by
  cases sd <;> exact lt_irrefl x

/-- The ordering invariant between two handles of one queue: weak price
priority, and ascending ids on equal prices except for retagged (-1)
tombstones, which `Book.modify_order` leaves in place with a smaller id. -/
def qrel (sd : Side) (s : Store) (a b : Nat) : Prop :=
  priceLE sd (getOrd s a).price (getOrd s b).price ∧
    ((getOrd s a).price = (getOrd s b).price →
      (getOrd s a).order_id = -1 ∨ (getOrd s b).order_id = -1 ∨
        (getOrd s a).order_id ≤ (getOrd s b).order_id)

/-- Characterization of `Order.__lt__` by the left operand's side. -/
theorem order_lt_iff (sd : Side) (a b : Order) (h : a.order_side = sd) :
    a.lt b = true ↔
      (priceLT sd a.price b.price ∨
        (a.price = b.price ∧ a.order_id < b.order_id)) := by
  unfold Order.lt
  rw [h]
  by_cases hp : a.price = b.price
  · rw [if_pos hp]
    simp only [decide_eq_true_eq]
    constructor
    · intro hid
      exact Or.inr ⟨hp, hid⟩
    · rintro (h1 | h1)
      · exact absurd (hp ▸ h1) (priceLT_irrefl sd _)
      · exact h1.2
  · rw [if_neg hp]
    cases sd
    · simp only [decide_eq_true_eq]
      constructor
      · intro h1
        exact Or.inl h1
      · rintro (h1 | h1)
        · exact h1
        · exact absurd h1.1 hp
    · simp only [decide_eq_true_eq]
      constructor
      · intro h1
        exact Or.inl h1
      · rintro (h1 | h1)
        · exact h1
        · exact absurd h1.1 hp

theorem mem_insert_ord (s : Store) (l : List Nat) (o : Nat) :
    ∀ x, x ∈ insert_ord s l o ↔ x = o ∨ x ∈ l := by
  induction l with
  | nil => intro x; simp [insert_ord]
  | cons y ys ih =>
    intro x
    simp only [insert_ord]
    split_ifs with h
    · simp only [List.mem_cons]
    · simp only [List.mem_cons, ih]
      tauto

theorem nodup_insert_ord (s : Store) (l : List Nat) (o : Nat) (hnd : l.Nodup)
    (ho : o ∉ l) : (insert_ord s l o).Nodup := by
  induction l with
  | nil => simp [insert_ord]
  | cons y ys ih =>
    have hy : y ∉ ys := (List.nodup_cons.mp hnd).1
    have hnds : ys.Nodup := (List.nodup_cons.mp hnd).2
    have hoy : o ≠ y := fun h => ho (h ▸ List.mem_cons_self y ys)
    have hoys : o ∉ ys := fun h => ho (List.mem_cons_of_mem y h)
    simp only [insert_ord]
    split_ifs with h
    · exact List.nodup_cons.mpr ⟨ho, hnd⟩
    · refine List.nodup_cons.mpr ⟨?_, ih hnds hoys⟩
      intro hmem
      rcases (mem_insert_ord s ys o y).mp hmem with h1 | h1
      · exact hoy h1.symm
      · exact hy h1

/-- Ordered insertion of a fresh order with a nonnegative id preserves the
queue-order invariant. -/
theorem pairwise_insert_ord (sd : Side) (s : Store) (l : List Nat) (o : Nat)
    (hp : l.Pairwise (qrel sd s))
    (hside : (getOrd s o).order_side = sd)
    (hid : 0 ≤ (getOrd s o).order_id) :
    (insert_ord s l o).Pairwise (qrel sd s) := by
  induction l with
  | nil => simp [insert_ord, List.pairwise_cons]
  | cons x xs ih =>
    have hx : ∀ c ∈ xs, qrel sd s x c := (List.pairwise_cons.mp hp).1
    have hxs : xs.Pairwise (qrel sd s) := (List.pairwise_cons.mp hp).2
    simp only [insert_ord]
    split_ifs with h
    · -- o ranks strictly before x: o precedes x and everything after it
      have hlt := (order_lt_iff sd (getOrd s o) (getOrd s x) hside).mp h
      have hqox : qrel sd s o x := by
        rcases hlt with h1 | h1
        · exact ⟨priceLE_of_lt sd h1, fun he => absurd (he ▸ h1) (priceLT_irrefl sd _)⟩
        · exact ⟨priceLE_of_eq sd h1.1, fun _ => Or.inr (Or.inr (le_of_lt h1.2))⟩
      refine List.pairwise_cons.mpr ⟨?_, hp⟩
      intro c hc
      rcases List.mem_cons.mp hc with rfl | hc
      · exact hqox
      · -- propagate o before x before c
        have hxc := hx c hc
        rcases hlt with h1 | h1
        · exact ⟨priceLE_of_lt sd (priceLT_of_lt_of_le sd h1 hxc.1), fun he =>
            absurd (priceLT_of_lt_of_le sd h1 hxc.1) (he ▸ priceLT_irrefl sd _)⟩
        · refine ⟨?_, ?_⟩
          · rw [h1.1]; exact hxc.1
          · intro he
            have hpxc : (getOrd s x).price = (getOrd s c).price := by
              rw [← h1.1]; exact he
            rcases hxc.2 hpxc with h2 | h2 | h2
            · exfalso; omega
            · exact Or.inr (Or.inl h2)
            · exact Or.inr (Or.inr (by omega))
    · -- o does not rank before x: x precedes o, recurse into the tail
      have hnlt := (order_lt_iff sd (getOrd s o) (getOrd s x) hside).not.mp
        (by simpa using h)
      push_neg at hnlt
      have hqxo : qrel sd s x o := by
        refine ⟨priceLE_of_not_lt sd hnlt.1, ?_⟩
        intro he
        exact Or.inr (Or.inr (by have := hnlt.2 he.symm; omega))
      refine List.pairwise_cons.mpr ⟨?_, ih hxs⟩
      intro c hc
      rcases (mem_insert_ord s xs o c).mp hc with rfl | hc
      · exact hqxo
      · exact hx c hc

/-- The market loop is the limit matching loop with the crossing test erased. -/
theorem market_loop_eq (l : List Nat) (s : Store) (o : Nat) :
    market_loop s l o = match_loop (fun _ _ => true) s l o := by
  induction l generalizing s with
  | nil => rfl
  | cons top rest ih =>
    rw [match_loop_cons]
    unfold market_loop
    simp only [and_true, ih]

/-! ### Unfolding equations for the submission paths -/

theorem add_limit_order_buy (b : BookSt) (oref : Nat)
    (hside : (getOrd b.orders oref).order_side = Side.BUY) :
    add_limit_order b oref =
      (let res := match_loop buyCross b.orders b.sell_queue oref
       let b1 : BookSt := { b with orders := res.1, sell_queue := res.2.1 }
       if 0 < (getOrd b1.orders oref).quantity then
         ({ b1 with buy_queue := insert_ord b1.orders b1.buy_queue oref }, res.2.2)
       else
         (b1, res.2.2)) := by
  unfold add_limit_order
  rw [hside]

theorem add_limit_order_sell (b : BookSt) (oref : Nat)
    (hside : (getOrd b.orders oref).order_side = Side.SELL) :
    add_limit_order b oref =
      (let res := match_loop sellCross b.orders b.buy_queue oref
       let b1 : BookSt := { b with orders := res.1, buy_queue := res.2.1 }
       if 0 < (getOrd b1.orders oref).quantity then
         ({ b1 with sell_queue := insert_ord b1.orders b1.sell_queue oref }, res.2.2)
       else
         (b1, res.2.2)) := by
  unfold add_limit_order
  rw [hside]

theorem add_market_order_buy (b : BookSt) (oref : Nat)
    (hside : (getOrd b.orders oref).order_side = Side.BUY) :
    add_market_order b oref =
      (let res := market_loop b.orders b.sell_queue oref
       ({ b with orders := res.1, sell_queue := res.2.1 }, res.2.2)) := by
  unfold add_market_order
  rw [hside]

theorem add_market_order_sell (b : BookSt) (oref : Nat)
    (hside : (getOrd b.orders oref).order_side = Side.SELL) :
    add_market_order b oref =
      (let res := market_loop b.orders b.buy_queue oref
       ({ b with orders := res.1, buy_queue := res.2.1 }, res.2.2)) := by
  unfold add_market_order
  rw [hside]

/-! ### The book invariant -/

/-- The structural invariant of a reachable book: queue handles are live and
unique, each queue holds a single side, both queues are ordered (weak price
priority with ascending ids on equal prices, except retagged tombstones), the
book is uncrossed on real orders, retagged (-1) ids only occur on tombstones,
and every id is -1 or positive. -/
structure INV (b : BookSt) : Prop where
  validB : ∀ r ∈ b.buy_queue, r < b.orders.length
  validS : ∀ r ∈ b.sell_queue, r < b.orders.length
  sideB : ∀ r ∈ b.buy_queue, (getOrd b.orders r).order_side = Side.BUY
  sideS : ∀ r ∈ b.sell_queue, (getOrd b.orders r).order_side = Side.SELL
  nodupB : b.buy_queue.Nodup
  nodupS : b.sell_queue.Nodup
  sortB : b.buy_queue.Pairwise (qrel Side.BUY b.orders)
  sortS : b.sell_queue.Pairwise (qrel Side.SELL b.orders)
  uncrossed : ∀ a ∈ b.buy_queue, ∀ c ∈ b.sell_queue,
    0 < (getOrd b.orders a).quantity → 0 < (getOrd b.orders c).quantity →
      (getOrd b.orders a).price < (getOrd b.orders c).price
  negid : ∀ r, r < b.orders.length → (getOrd b.orders r).order_id = -1 →
    (getOrd b.orders r).quantity = 0
  idrange : ∀ r, r < b.orders.length → (getOrd b.orders r).order_id = -1 ∨
    1 ≤ (getOrd b.orders r).order_id

theorem INV_not_mem_sell {b : BookSt} (h : INV b) {r : Nat}
    (hr : r ∈ b.buy_queue) : r ∉ b.sell_queue := by
  intro hs
  have h1 := h.sideB r hr
  have h2 := h.sideS r hs
  rw [h1] at h2
  exact Side.noConfusion h2

/-- Appending a fresh order object preserves the invariant. -/
theorem append_INV {b : BookSt} (h : INV b) (o : Order)
    (hido : o.order_id = -1 ∨ 1 ≤ o.order_id)
    (hq : o.order_id = -1 → o.quantity = 0) :
    INV { b with orders := b.orders ++ [o] } := by
  have hget : ∀ r ∈ b.buy_queue ∪ b.sell_queue,
      getOrd (b.orders ++ [o]) r = getOrd b.orders r := by
    intro r hr
    rcases List.mem_union_iff.mp hr with hr | hr
    · exact getOrd_append_lt (h.validB r hr)
    · exact getOrd_append_lt (h.validS r hr)
  have hgetB : ∀ r ∈ b.buy_queue, getOrd (b.orders ++ [o]) r = getOrd b.orders r :=
    fun r hr => hget r (List.mem_union_iff.mpr (Or.inl hr))
  have hgetS : ∀ r ∈ b.sell_queue, getOrd (b.orders ++ [o]) r = getOrd b.orders r :=
    fun r hr => hget r (List.mem_union_iff.mpr (Or.inr hr))
  have hlen : (b.orders ++ [o]).length = b.orders.length + 1 := by
    rw [List.length_append, List.length_singleton]
  refine ⟨?_, ?_, ?_, ?_, h.nodupB, h.nodupS, ?_, ?_, ?_, ?_, ?_⟩
  · intro r hr
    rw [hlen]
    exact Nat.lt_succ_of_lt (h.validB r hr)
  · intro r hr
    rw [hlen]
    exact Nat.lt_succ_of_lt (h.validS r hr)
  · intro r hr
    rw [hgetB r hr]
    exact h.sideB r hr
  · intro r hr
    rw [hgetS r hr]
    exact h.sideS r hr
  · refine h.sortB.imp_of_mem ?_
    intro a c ha hc hq'
    unfold qrel at hq' ⊢
    rw [hgetB a ha, hgetB c hc]
    exact hq'
  · refine h.sortS.imp_of_mem ?_
    intro a c ha hc hq'
    unfold qrel at hq' ⊢
    rw [hgetS a ha, hgetS c hc]
    exact hq'
  · intro a ha c hc
    rw [hgetB a ha, hgetS c hc]
    exact h.uncrossed a ha c hc
  · intro r hr
    rw [hlen] at hr
    rcases Nat.lt_succ_iff_lt_or_eq.mp hr with hr' | hr'
    · rw [getOrd_append_lt hr']
      exact h.negid r hr'
    · subst hr'
      rw [getOrd_append_self]
      exact hq
  · intro r hr
    rw [hlen] at hr
    rcases Nat.lt_succ_iff_lt_or_eq.mp hr with hr' | hr'
    · rw [getOrd_append_lt hr']
      exact h.idrange r hr'
    · subst hr'
      rw [getOrd_append_self]
      exact hido

/-- Cancellation (tombstoning) preserves the invariant. -/
theorem delete_INV {b : BookSt} (h : INV b) (r : Nat) :
    INV (delete_order b r) := by
  have hfields := fun t => fields_setQty b.orders r 0 t
  have hlen : (setQty b.orders r 0).length = b.orders.length := length_setQty ..
  have hqle : ∀ t, (getOrd (setQty b.orders r 0) t).quantity ≤
      (getOrd b.orders t).quantity ∨ (getOrd (setQty b.orders r 0) t).quantity = 0 := by
    intro t
    by_cases ht : t = r
    · subst ht
      by_cases hl : t < b.orders.length
      · right; exact quantity_setQty_self hl
      · left; rw [setQty_oob (Nat.le_of_not_lt hl)]
    · left; rw [getOrd_setQty_ne ht]
  refine ⟨?_, ?_, ?_, ?_, h.nodupB, h.nodupS, ?_, ?_, ?_, ?_, ?_⟩
  all_goals unfold delete_order
  all_goals dsimp only
  · intro t ht
    rw [hlen]
    exact h.validB t ht
  · intro t ht
    rw [hlen]
    exact h.validS t ht
  · intro t ht
    rw [(hfields t).2.2.1]
    exact h.sideB t ht
  · intro t ht
    rw [(hfields t).2.2.1]
    exact h.sideS t ht
  · refine h.sortB.imp ?_
    intro a c hq'
    unfold qrel at hq' ⊢
    rw [(hfields a).1, (hfields a).2.2.2.1, (hfields c).1, (hfields c).2.2.2.1]
    exact hq'
  · refine h.sortS.imp ?_
    intro a c hq'
    unfold qrel at hq' ⊢
    rw [(hfields a).1, (hfields a).2.2.2.1, (hfields c).1, (hfields c).2.2.2.1]
    exact hq'
  · intro a ha c hc hqa hqc
    rw [(hfields a).2.2.2.1, (hfields c).2.2.2.1]
    rcases hqle a with h1 | h1
    · rcases hqle c with h2 | h2
      · exact h.uncrossed a ha c hc (by omega) (by omega)
      · omega
    · omega
  · intro t ht hid
    rw [hlen] at ht
    rw [(hfields t).1] at hid
    by_cases htr : t = r
    · subst htr
      exact quantity_setQty_self ht
    · rw [getOrd_setQty_ne htr]
      exact h.negid t ht hid
  · intro t ht
    rw [hlen] at ht
    rw [(hfields t).1]
    exact h.idrange t ht


/-- The match phase of a buy submission (any crossing predicate) preserves the
invariant: the store keeps its shape, the sell queue is popped from the front,
quantities only decrease. -/
theorem match_phase_INV_buy (cmp : Price → Price → Bool) (b : BookSt)
    (oref : Nat) (h : INV b) (hfb : oref ∉ b.buy_queue)
    (hidne : (getOrd b.orders oref).order_id ≠ -1) :
    INV { b with
          orders := (match_loop cmp b.orders b.sell_queue oref).1,
          sell_queue := (match_loop cmp b.orders b.sell_queue oref).2.1 } := by
  have flen := match_loop_length cmp b.sell_queue b.orders oref
  have ffields := match_loop_fields cmp b.sell_queue b.orders oref
  have fsub := (match_loop_suffix cmp b.sell_queue b.orders oref).sublist
  have fqle := match_loop_qty_le cmp b.sell_queue b.orders oref
  have funtouched : ∀ r ∈ b.buy_queue,
      getOrd (match_loop cmp b.orders b.sell_queue oref).1 r = getOrd b.orders r :=
    fun r hr => match_loop_untouched cmp b.sell_queue b.orders oref r
      (INV_not_mem_sell h hr) (fun he => hfb (he ▸ hr))
  have fneg := match_loop_negid cmp b.sell_queue b.orders oref h.negid hidne
  refine ⟨?_, ?_, ?_, ?_, h.nodupB, h.nodupS.sublist fsub, ?_, ?_, ?_, ?_, ?_⟩
  all_goals dsimp only
  · intro r hr
    rw [flen]
    exact h.validB r hr
  · intro r hr
    rw [flen]
    exact h.validS r (fsub.subset hr)
  · intro r hr
    rw [(ffields r).2.2.1]
    exact h.sideB r hr
  · intro r hr
    rw [(ffields r).2.2.1]
    exact h.sideS r (fsub.subset hr)
  · refine h.sortB.imp ?_
    intro a c hq'
    unfold qrel at hq' ⊢
    rw [(ffields a).1, (ffields a).2.2.2.1, (ffields c).1, (ffields c).2.2.2.1]
    exact hq'
  · refine (h.sortS.sublist fsub).imp ?_
    intro a c hq'
    unfold qrel at hq' ⊢
    rw [(ffields a).1, (ffields a).2.2.2.1, (ffields c).1, (ffields c).2.2.2.1]
    exact hq'
  · intro a ha c hc hqa hqc
    rw [(ffields a).2.2.2.1, (ffields c).2.2.2.1]
    rw [funtouched a ha] at hqa
    have hqc' : 0 < (getOrd b.orders c).quantity := lt_of_lt_of_le hqc (fqle c)
    exact h.uncrossed a ha c (fsub.subset hc) hqa hqc'
  · exact fneg
  · intro r hr
    rw [flen] at hr
    rw [(ffields r).1]
    exact h.idrange r hr

/-- The match phase of a sell submission preserves the invariant. -/
theorem match_phase_INV_sell (cmp : Price → Price → Bool) (b : BookSt)
    (oref : Nat) (h : INV b) (hfs : oref ∉ b.sell_queue)
    (hidne : (getOrd b.orders oref).order_id ≠ -1) :
    INV { b with
          orders := (match_loop cmp b.orders b.buy_queue oref).1,
          buy_queue := (match_loop cmp b.orders b.buy_queue oref).2.1 } := by
  have flen := match_loop_length cmp b.buy_queue b.orders oref
  have ffields := match_loop_fields cmp b.buy_queue b.orders oref
  have fsub := (match_loop_suffix cmp b.buy_queue b.orders oref).sublist
  have fqle := match_loop_qty_le cmp b.buy_queue b.orders oref
  have funtouched : ∀ r ∈ b.sell_queue,
      getOrd (match_loop cmp b.orders b.buy_queue oref).1 r = getOrd b.orders r := by
    intro r hr
    refine match_loop_untouched cmp b.buy_queue b.orders oref r ?_
      (fun he => hfs (he ▸ hr))
    intro hb
    exact INV_not_mem_sell h hb hr
  have fneg := match_loop_negid cmp b.buy_queue b.orders oref h.negid hidne
  refine ⟨?_, ?_, ?_, ?_, h.nodupB.sublist fsub, h.nodupS, ?_, ?_, ?_, ?_, ?_⟩
  all_goals dsimp only
  · intro r hr
    rw [flen]
    exact h.validB r (fsub.subset hr)
  · intro r hr
    rw [flen]
    exact h.validS r hr
  · intro r hr
    rw [(ffields r).2.2.1]
    exact h.sideB r (fsub.subset hr)
  · intro r hr
    rw [(ffields r).2.2.1]
    exact h.sideS r hr
  · refine (h.sortB.sublist fsub).imp ?_
    intro a c hq'
    unfold qrel at hq' ⊢
    rw [(ffields a).1, (ffields a).2.2.2.1, (ffields c).1, (ffields c).2.2.2.1]
    exact hq'
  · refine h.sortS.imp ?_
    intro a c hq'
    unfold qrel at hq' ⊢
    rw [(ffields a).1, (ffields a).2.2.2.1, (ffields c).1, (ffields c).2.2.2.1]
    exact hq'
  · intro a ha c hc hqa hqc
    rw [(ffields a).2.2.2.1, (ffields c).2.2.2.1]
    rw [funtouched c hc] at hqc
    have hqa' : 0 < (getOrd b.orders a).quantity := lt_of_lt_of_le hqa (fqle a)
    exact h.uncrossed a (fsub.subset ha) c hc hqa' hqc
  · exact fneg
  · intro r hr
    rw [flen] at hr
    rw [(ffields r).1]
    exact h.idrange r hr


/-- Inserting a fresh real buy order that does not cross any remaining real
ask preserves the invariant. -/
theorem push_buy_INV (b1 : BookSt) (h1 : INV b1) (oref : Nat)
    (hfb1 : oref ∉ b1.buy_queue)
    (hside : (getOrd b1.orders oref).order_side = Side.BUY)
    (hq : 0 < (getOrd b1.orders oref).quantity)
    (hid0 : 0 ≤ (getOrd b1.orders oref).order_id)
    (huncross : ∀ c ∈ b1.sell_queue, 0 < (getOrd b1.orders c).quantity →
      (getOrd b1.orders oref).price < (getOrd b1.orders c).price) :
    INV { b1 with buy_queue := insert_ord b1.orders b1.buy_queue oref } := by
  refine ⟨?_, h1.validS, ?_, h1.sideS, ?_, h1.nodupS, ?_, h1.sortS, ?_,
    h1.negid, h1.idrange⟩
  all_goals dsimp only
  · intro r hr
    rcases (mem_insert_ord _ _ _ r).mp hr with rfl | hr
    · exact lt_length_of_qty_pos hq
    · exact h1.validB r hr
  · intro r hr
    rcases (mem_insert_ord _ _ _ r).mp hr with rfl | hr
    · exact hside
    · exact h1.sideB r hr
  · exact nodup_insert_ord _ _ _ h1.nodupB hfb1
  · exact pairwise_insert_ord Side.BUY b1.orders b1.buy_queue oref h1.sortB
      hside hid0
  · intro a ha c hc hqa hqc
    rcases (mem_insert_ord _ _ _ a).mp ha with rfl | ha
    · exact huncross c hc hqc
    · exact h1.uncrossed a ha c hc hqa hqc

/-- Inserting a fresh real sell order that no remaining real bid crosses
preserves the invariant. -/
theorem push_sell_INV (b1 : BookSt) (h1 : INV b1) (oref : Nat)
    (hfs1 : oref ∉ b1.sell_queue)
    (hside : (getOrd b1.orders oref).order_side = Side.SELL)
    (hq : 0 < (getOrd b1.orders oref).quantity)
    (hid0 : 0 ≤ (getOrd b1.orders oref).order_id)
    (huncross : ∀ a ∈ b1.buy_queue, 0 < (getOrd b1.orders a).quantity →
      (getOrd b1.orders a).price < (getOrd b1.orders oref).price) :
    INV { b1 with sell_queue := insert_ord b1.orders b1.sell_queue oref } := by
  refine ⟨h1.validB, ?_, h1.sideB, ?_, h1.nodupB, ?_, h1.sortB, ?_, ?_,
    h1.negid, h1.idrange⟩
  all_goals dsimp only
  · intro r hr
    rcases (mem_insert_ord _ _ _ r).mp hr with rfl | hr
    · exact lt_length_of_qty_pos hq
    · exact h1.validS r hr
  · intro r hr
    rcases (mem_insert_ord _ _ _ r).mp hr with rfl | hr
    · exact hside
    · exact h1.sideS r hr
  · exact nodup_insert_ord _ _ _ h1.nodupS hfs1
  · exact pairwise_insert_ord Side.SELL b1.orders b1.sell_queue oref h1.sortS
      hside hid0
  · intro a ha c hc hqa hqc
    rcases (mem_insert_ord _ _ _ c).mp hc with rfl | hc
    · exact huncross a ha hqa
    · exact h1.uncrossed a ha c hc hqa hqc

/-- A limit buy submission on a fresh handle with a positive id preserves the
invariant. -/
theorem limit_buy_INV (b : BookSt) (oref : Nat) (h : INV b)
    (hfb : oref ∉ b.buy_queue) (hfs : oref ∉ b.sell_queue)
    (hside : (getOrd b.orders oref).order_side = Side.BUY)
    (hid1 : 1 ≤ (getOrd b.orders oref).order_id) :
    INV (add_limit_order b oref).1 := by
  have hidne : (getOrd b.orders oref).order_id ≠ -1 := by omega
  have hK := match_phase_INV_buy buyCross b oref h hfb hidne
  have ffields := match_loop_fields buyCross b.sell_queue b.orders oref
  have fstop := match_loop_stop buyCross b.sell_queue b.orders oref
  rw [add_limit_order_buy b oref hside]
  dsimp only
  split_ifs with hq
  · refine push_buy_INV _ hK oref hfb ?_ hq ?_ ?_
    · show (getOrd (match_loop buyCross b.orders b.sell_queue oref).1
        oref).order_side = Side.BUY
      rw [(ffields oref).2.2.1]
      exact hside
    · show 0 ≤ (getOrd (match_loop buyCross b.orders b.sell_queue oref).1
        oref).order_id
      rw [(ffields oref).1]
      omega
    · show ∀ c ∈ (match_loop buyCross b.orders b.sell_queue oref).2.1,
        0 < (getOrd (match_loop buyCross b.orders b.sell_queue oref).1 c).quantity →
        (getOrd (match_loop buyCross b.orders b.sell_queue oref).1 oref).price <
          (getOrd (match_loop buyCross b.orders b.sell_queue oref).1 c).price
      intro c hc hqc
      cases hq2 : (match_loop buyCross b.orders b.sell_queue oref).2.1 with
      | nil =>
        rw [hq2] at hc
        exact absurd hc (List.not_mem_nil c)
      | cons hd tl =>
        have hstop := fstop hd tl hq2
        have hncmp : ¬ (buyCross
            (getOrd (match_loop buyCross b.orders b.sell_queue oref).1 oref).price
            (getOrd (match_loop buyCross b.orders b.sell_queue oref).1 hd).price
              = true) :=
          fun hB => hstop ⟨hq, hB⟩
        have hlt : (getOrd (match_loop buyCross b.orders b.sell_queue oref).1
            oref).price <
            (getOrd (match_loop buyCross b.orders b.sell_queue oref).1 hd).price := by
          unfold buyCross at hncmp
          simp only [decide_eq_true_eq] at hncmp
          exact lt_of_not_le hncmp
        rw [hq2] at hc
        rcases List.mem_cons.mp hc with rfl | hc2
        · exact hlt
        · have hsort : List.Pairwise (qrel Side.SELL
              (match_loop buyCross b.orders b.sell_queue oref).1)
              ((match_loop buyCross b.orders b.sell_queue oref).2.1) := hK.sortS
          rw [hq2] at hsort
          have hrel := (List.pairwise_cons.mp hsort).1 c hc2
          exact lt_of_lt_of_le hlt hrel.1
  · exact hK

/-- A limit sell submission on a fresh handle with a positive id preserves the
invariant. -/
theorem limit_sell_INV (b : BookSt) (oref : Nat) (h : INV b)
    (hfb : oref ∉ b.buy_queue) (hfs : oref ∉ b.sell_queue)
    (hside : (getOrd b.orders oref).order_side = Side.SELL)
    (hid1 : 1 ≤ (getOrd b.orders oref).order_id) :
    INV (add_limit_order b oref).1 := by
  have hidne : (getOrd b.orders oref).order_id ≠ -1 := by omega
  have hK := match_phase_INV_sell sellCross b oref h hfs hidne
  have ffields := match_loop_fields sellCross b.buy_queue b.orders oref
  have fstop := match_loop_stop sellCross b.buy_queue b.orders oref
  rw [add_limit_order_sell b oref hside]
  dsimp only
  split_ifs with hq
  · refine push_sell_INV _ hK oref hfs ?_ hq ?_ ?_
    · show (getOrd (match_loop sellCross b.orders b.buy_queue oref).1
        oref).order_side = Side.SELL
      rw [(ffields oref).2.2.1]
      exact hside
    · show 0 ≤ (getOrd (match_loop sellCross b.orders b.buy_queue oref).1
        oref).order_id
      rw [(ffields oref).1]
      omega
    · show ∀ a ∈ (match_loop sellCross b.orders b.buy_queue oref).2.1,
        0 < (getOrd (match_loop sellCross b.orders b.buy_queue oref).1 a).quantity →
        (getOrd (match_loop sellCross b.orders b.buy_queue oref).1 a).price <
          (getOrd (match_loop sellCross b.orders b.buy_queue oref).1 oref).price
      intro a ha hqa
      cases hq2 : (match_loop sellCross b.orders b.buy_queue oref).2.1 with
      | nil =>
        rw [hq2] at ha
        exact absurd ha (List.not_mem_nil a)
      | cons hd tl =>
        have hstop := fstop hd tl hq2
        have hncmp : ¬ (sellCross
            (getOrd (match_loop sellCross b.orders b.buy_queue oref).1 oref).price
            (getOrd (match_loop sellCross b.orders b.buy_queue oref).1 hd).price
              = true) :=
          fun hB => hstop ⟨hq, hB⟩
        have hlt : (getOrd (match_loop sellCross b.orders b.buy_queue oref).1
            hd).price <
            (getOrd (match_loop sellCross b.orders b.buy_queue oref).1 oref).price := by
          unfold sellCross at hncmp
          simp only [decide_eq_true_eq] at hncmp
          exact lt_of_not_le hncmp
        rw [hq2] at ha
        rcases List.mem_cons.mp ha with rfl | ha2
        · exact hlt
        · have hsort : List.Pairwise (qrel Side.BUY
              (match_loop sellCross b.orders b.buy_queue oref).1)
              ((match_loop sellCross b.orders b.buy_queue oref).2.1) := hK.sortB
          rw [hq2] at hsort
          have hrel := (List.pairwise_cons.mp hsort).1 a ha2
          exact lt_of_le_of_lt hrel.1 hlt
  · exact hK

/-- A market submission on a fresh handle preserves the invariant. -/
theorem market_INV (b : BookSt) (oref : Nat) (h : INV b)
    (hfb : oref ∉ b.buy_queue) (hfs : oref ∉ b.sell_queue)
    (hidne : (getOrd b.orders oref).order_id ≠ -1) :
    INV (add_market_order b oref).1 := by
  cases hside : (getOrd b.orders oref).order_side with
  | BUY =>
    rw [add_market_order_buy b oref hside]
    dsimp only
    rw [market_loop_eq]
    exact match_phase_INV_buy (fun _ _ => true) b oref h hfb hidne
  | SELL =>
    rw [add_market_order_sell b oref hside]
    dsimp only
    rw [market_loop_eq]
    exact match_phase_INV_sell (fun _ _ => true) b oref h hfs hidne

/-- Order creation and submission through `Book.add_order` with a fresh
positive id preserves the invariant. -/
theorem add_order_INV (b : BookSt) (oid : Int) (t : OrderType) (sd : Side)
    (q : Int) (p : Price) (stk : String) (h : INV b) (hid : 1 ≤ oid) :
    INV (add_order b oid t sd q p stk).1 := by
  have hb0 : INV { b with orders := b.orders ++ [⟨oid, t, sd, q, p, stk⟩] } := by
    refine append_INV h _ (Or.inr hid) ?_
    intro hc
    exfalso
    have hc2 : oid = -1 := hc
    omega
  have hself := getOrd_append_self b.orders ⟨oid, t, sd, q, p, stk⟩
  have hfb : b.orders.length ∉ b.buy_queue :=
    fun hc => absurd (h.validB _ hc) (lt_irrefl _)
  have hfs : b.orders.length ∉ b.sell_queue :=
    fun hc => absurd (h.validS _ hc) (lt_irrefl _)
  unfold add_order
  cases t with
  | MARKET =>
    dsimp only
    refine market_INV _ _ hb0 hfb hfs ?_
    show (getOrd (b.orders ++ [⟨oid, OrderType.MARKET, sd, q, p, stk⟩])
      b.orders.length).order_id ≠ -1
    rw [hself]
    show oid ≠ -1
    omega
  | LIMIT =>
    dsimp only
    cases sd with
    | BUY =>
      refine limit_buy_INV _ _ hb0 hfb hfs ?_ ?_
      · show (getOrd (b.orders ++ [⟨oid, OrderType.LIMIT, Side.BUY, q, p, stk⟩])
          b.orders.length).order_side = Side.BUY
        rw [hself]
      · show 1 ≤ (getOrd (b.orders ++ [⟨oid, OrderType.LIMIT, Side.BUY, q, p, stk⟩])
          b.orders.length).order_id
        rw [hself]
        exact hid
    | SELL =>
      refine limit_sell_INV _ _ hb0 hfb hfs ?_ ?_
      · show (getOrd (b.orders ++ [⟨oid, OrderType.LIMIT, Side.SELL, q, p, stk⟩])
          b.orders.length).order_side = Side.SELL
        rw [hself]
      · show 1 ≤ (getOrd (b.orders ++ [⟨oid, OrderType.LIMIT, Side.SELL, q, p, stk⟩])
          b.orders.length).order_id
        rw [hself]
        exact hid


/-- Retagging an order's id to -1 and tombstoning it (the first half of
`Book.modify_order`) preserves the invariant. -/
theorem retag_delete_INV (b : BookSt) (r : Nat) (h : INV b) :
    INV (delete_order
      { b with
        orders := b.orders.set r { getOrd b.orders r with order_id := -1 } }
      r) := by
  by_cases hrl : r < b.orders.length
  case neg =>
    have he1 : b.orders.set r { getOrd b.orders r with order_id := -1 } =
        b.orders := List.set_eq_of_length_le (Nat.le_of_not_lt hrl)
    unfold delete_order
    dsimp only
    rw [he1, setQty_oob (Nat.le_of_not_lt hrl)]
    exact h
  case pos =>
  have hg_ne : ∀ t, t ≠ r →
      getOrd (setQty (b.orders.set r
        { getOrd b.orders r with order_id := -1 }) r 0) t = getOrd b.orders t := by
    intro t ht
    rw [getOrd_setQty_ne ht, getOrd_set_ne ht]
  have hlen1 : (b.orders.set r
      { getOrd b.orders r with order_id := -1 }).length = b.orders.length :=
    List.length_set ..
  have hg_eq : getOrd (setQty (b.orders.set r
      { getOrd b.orders r with order_id := -1 }) r 0) r =
      { getOrd b.orders r with order_id := -1, quantity := 0 } := by
    rw [getOrd_setQty_self (by rw [hlen1]; exact hrl), getOrd_set_self hrl]
  have hlen : (setQty (b.orders.set r
      { getOrd b.orders r with order_id := -1 }) r 0).length =
      b.orders.length := by
    rw [length_setQty, hlen1]
  have hidr : (getOrd (setQty (b.orders.set r
      { getOrd b.orders r with order_id := -1 }) r 0) r).order_id = -1 := by
    rw [hg_eq]
  have hqtyr : (getOrd (setQty (b.orders.set r
      { getOrd b.orders r with order_id := -1 }) r 0) r).quantity = 0 := by
    rw [hg_eq]
  have hside2 : ∀ t, (getOrd (setQty (b.orders.set r
      { getOrd b.orders r with order_id := -1 }) r 0) t).order_side =
      (getOrd b.orders t).order_side := by
    intro t
    by_cases htr : t = r
    · rw [htr, hg_eq]
    · rw [hg_ne t htr]
  have hprice2 : ∀ t, (getOrd (setQty (b.orders.set r
      { getOrd b.orders r with order_id := -1 }) r 0) t).price =
      (getOrd b.orders t).price := by
    intro t
    by_cases htr : t = r
    · rw [htr, hg_eq]
    · rw [hg_ne t htr]
  have hqty2 : ∀ t, (getOrd (setQty (b.orders.set r
      { getOrd b.orders r with order_id := -1 }) r 0) t).quantity = 0 ∨
      (getOrd (setQty (b.orders.set r
        { getOrd b.orders r with order_id := -1 }) r 0) t).quantity =
        (getOrd b.orders t).quantity := by
    intro t
    by_cases htr : t = r
    · left
      rw [htr, hg_eq]
    · right
      rw [hg_ne t htr]
  refine ⟨?_, ?_, ?_, ?_, h.nodupB, h.nodupS, ?_, ?_, ?_, ?_, ?_⟩
  all_goals unfold delete_order
  all_goals dsimp only
  · intro t ht
    rw [hlen]
    exact h.validB t ht
  · intro t ht
    rw [hlen]
    exact h.validS t ht
  · intro t ht
    rw [hside2 t]
    exact h.sideB t ht
  · intro t ht
    rw [hside2 t]
    exact h.sideS t ht
  · refine h.sortB.imp ?_
    intro a c hq'
    unfold qrel at hq' ⊢
    refine ⟨by rw [hprice2 a, hprice2 c]; exact hq'.1, ?_⟩
    intro he
    rw [hprice2 a, hprice2 c] at he
    by_cases har : a = r
    · exact Or.inl (by rw [har]; exact hidr)
    · by_cases hcr : c = r
      · exact Or.inr (Or.inl (by rw [hcr]; exact hidr))
      · rcases hq'.2 he with h1 | h1 | h1
        · exact Or.inl (by rw [hg_ne a har]; exact h1)
        · exact Or.inr (Or.inl (by rw [hg_ne c hcr]; exact h1))
        · refine Or.inr (Or.inr ?_)
          rw [hg_ne a har, hg_ne c hcr]
          exact h1
  · refine h.sortS.imp ?_
    intro a c hq'
    unfold qrel at hq' ⊢
    refine ⟨by rw [hprice2 a, hprice2 c]; exact hq'.1, ?_⟩
    intro he
    rw [hprice2 a, hprice2 c] at he
    by_cases har : a = r
    · exact Or.inl (by rw [har]; exact hidr)
    · by_cases hcr : c = r
      · exact Or.inr (Or.inl (by rw [hcr]; exact hidr))
      · rcases hq'.2 he with h1 | h1 | h1
        · exact Or.inl (by rw [hg_ne a har]; exact h1)
        · exact Or.inr (Or.inl (by rw [hg_ne c hcr]; exact h1))
        · refine Or.inr (Or.inr ?_)
          rw [hg_ne a har, hg_ne c hcr]
          exact h1
  · intro a ha c hc hqa hqc
    rw [hprice2 a, hprice2 c]
    rcases hqty2 a with h1 | h1
    · rw [h1] at hqa
      exact absurd hqa (by omega)
    · rcases hqty2 c with h2 | h2
      · rw [h2] at hqc
        exact absurd hqc (by omega)
      · rw [h1] at hqa
        rw [h2] at hqc
        exact h.uncrossed a ha c hc hqa hqc
  · intro t ht hid
    by_cases htr : t = r
    · rw [htr]
      exact hqtyr
    · rw [hg_ne t htr] at hid ⊢
      rw [hlen] at ht
      exact h.negid t ht hid
  · intro t ht
    by_cases htr : t = r
    · exact Or.inl (by rw [htr]; exact hidr)
    · rw [hg_ne t htr]
      rw [hlen] at ht
      exact h.idrange t ht

/-- `Book.modify_order` on an active (nonzero-quantity) order preserves the
invariant. -/
theorem modify_INV (b : BookSt) (r : Nat) (q : Int) (p : Price) (h : INV b)
    (hq : (getOrd b.orders r).quantity ≠ 0) :
    INV (modify_order b r q p).1 := by
  have hrl : r < b.orders.length := lt_length_of_qty_ne hq
  have hidne : (getOrd b.orders r).order_id ≠ -1 :=
    fun hc => hq (h.negid r hrl hc)
  have hid1 : 1 ≤ (getOrd b.orders r).order_id := by
    rcases h.idrange r hrl with h1 | h1
    · exact absurd h1 hidne
    · exact h1
  unfold modify_order
  dsimp only
  exact add_order_INV _ _ _ _ _ _ _ (retag_delete_INV b r h) hid1

/-! ### The engine invariant -/

/-- The engine invariant: the uid counter is nonnegative and the book is in
its structural invariant. -/
def EngINV (st : EngSt) : Prop := 0 ≤ st.uid ∧ INV st.book

theorem INV_init : INV initEng.book := by
  refine ⟨?_, ?_, ?_, ?_, ?_, ?_, ?_, ?_, ?_, ?_, ?_⟩ <;>
    simp [initEng, getOrd]

theorem step_EngINV (st : EngSt) (o : Op) (h : EngINV st) :
    EngINV (step st o) := by
  obtain ⟨huid, hbook⟩ := h
  cases o with
  | limit sd p q =>
    unfold step
    dsimp only
    split_ifs with hq0
    · exact ⟨huid, hbook⟩
    · exact ⟨by dsimp only; omega, add_order_INV _ _ _ _ _ _ _ hbook (by omega)⟩
  | market sd q =>
    unfold step
    dsimp only
    split_ifs with hq0
    · exact ⟨huid, hbook⟩
    · exact ⟨by dsimp only; omega,
        delete_INV (add_order_INV _ _ _ _ _ _ _ hbook (by omega)) _⟩
  | cancel i =>
    unfold step
    dsimp only
    cases hl : lookupMap st.orders_map i with
    | none => exact ⟨huid, hbook⟩
    | some rr =>
      dsimp only
      split_ifs with hq0
      · exact ⟨huid, hbook⟩
      · exact ⟨huid, delete_INV hbook rr⟩
  | modify i p q =>
    unfold step
    dsimp only
    split_ifs with hq0
    · exact ⟨huid, hbook⟩
    · cases hl : lookupMap st.orders_map i with
      | none => exact ⟨huid, hbook⟩
      | some rr =>
        dsimp only
        split_ifs with hact
        · exact ⟨huid, hbook⟩
        · exact ⟨huid, modify_INV st.book rr q p hbook hact⟩
  | render =>
    exact ⟨huid, hbook⟩

theorem foldl_EngINV (ops : List Op) :
    ∀ st, EngINV st → EngINV (ops.foldl step st) := by
  induction ops with
  | nil => exact fun st h => h
  | cons op rest ih => exact fun st h => ih _ (step_EngINV st op h)

/-- Every state reachable by a command sequence satisfies the engine
invariant. -/
theorem run_EngINV (ops : List Op) : EngINV (run ops) :=
  foldl_EngINV ops initEng ⟨le_refl 0, INV_init⟩


/-! ### Helper definitions for the claims -/

/-- A submit command with positive quantity (the claims' precondition). -/
def posSubmit : Op → Prop
  | .limit _ _ q => 0 < q
  | .market _ q => 0 < q
  | _ => False

instance : DecidablePred posSubmit := by
  intro o
  cases o <;> simp only [posSubmit] <;> infer_instance

/-- The side of a submit command, if it is one. -/
def submitSide : Op → Option Side
  | .limit sd _ _ => some sd
  | .market sd _ => some sd
  | _ => none

/-- The queue an incoming order of side `sd` matches against. -/
def oppQueue (b : BookSt) (sd : Side) : List Nat :=
  match sd with
  | .BUY => b.sell_queue
  | .SELL => b.buy_queue

/-- The queue an incoming order of side `sd` would rest in. -/
def ownQueue (b : BookSt) (sd : Side) : List Nat :=
  match sd with
  | .BUY => b.buy_queue
  | .SELL => b.sell_queue

/-- The prices of the real (positive-quantity) entries of a queue. -/
def realPrices (s : Store) (l : List Nat) : List Price :=
  (l.filter (fun r => decide (0 < (getOrd s r).quantity))).map
    (fun r => (getOrd s r).price)

/-- The best bid: the maximum price among real entries of the buy queue. -/
def bestBid (b : BookSt) : Option Price := (realPrices b.orders b.buy_queue).max?

/-- The best ask: the minimum price among real entries of the sell queue. -/
def bestAsk (b : BookSt) : Option Price := (realPrices b.orders b.sell_queue).min?

theorem mem_realPrices {s : Store} {l : List Nat} {p : Price}
    (h : p ∈ realPrices s l) :
    ∃ r ∈ l, 0 < (getOrd s r).quantity ∧ (getOrd s r).price = p := by
  unfold realPrices at h
  obtain ⟨r, hr, hp⟩ := List.mem_map.mp h
  obtain ⟨hrl, hq⟩ := List.mem_filter.mp hr
  exact ⟨r, hrl, of_decide_eq_true hq, hp⟩

/-- Two distinct members of a list occur in one order or the other. -/
theorem pair_sublist {l : List Nat} {a c : Nat} (ha : a ∈ l) (hc : c ∈ l)
    (hne : a ≠ c) : List.Sublist [a, c] l ∨ List.Sublist [c, a] l := by
  induction l with
  | nil => exact absurd ha (List.not_mem_nil a)
  | cons x xs ih =>
    rcases List.mem_cons.mp ha with rfl | ha2
    · have hc2 : c ∈ xs := by
        rcases List.mem_cons.mp hc with rfl | hc2
        · exact absurd rfl hne
        · exact hc2
      exact Or.inl (List.Sublist.cons₂ a ((List.singleton_sublist).mpr hc2))
    · rcases List.mem_cons.mp hc with rfl | hc2
      · exact Or.inr (List.Sublist.cons₂ c ((List.singleton_sublist).mpr ha2))
      · rcases ih ha2 hc2 with h1 | h1
        · exact Or.inl (h1.cons x)
        · exact Or.inr (h1.cons x)

/-- The handle returned by `Book.add_order` is the fresh store slot. -/
theorem add_order_ref (b : BookSt) (oid : Int) (t : OrderType) (sd : Side)
    (q : Int) (p : Price) (stk : String) :
    (add_order b oid t sd q p stk).2.1 = b.orders.length := by
  unfold add_order
  cases t <;> rfl


theorem add_order_limit_buy_eq (b : BookSt) (oid : Int) (q : Int) (p : Price)
    (stk : String) :
    (add_order b oid OrderType.LIMIT Side.BUY q p stk).1.orders =
      (match_loop buyCross (b.orders ++ [⟨oid, .LIMIT, .BUY, q, p, stk⟩])
        b.sell_queue b.orders.length).1 ∧
    (add_order b oid OrderType.LIMIT Side.BUY q p stk).1.sell_queue =
      (match_loop buyCross (b.orders ++ [⟨oid, .LIMIT, .BUY, q, p, stk⟩])
        b.sell_queue b.orders.length).2.1 ∧
    (add_order b oid OrderType.LIMIT Side.BUY q p stk).2.2 =
      (match_loop buyCross (b.orders ++ [⟨oid, .LIMIT, .BUY, q, p, stk⟩])
        b.sell_queue b.orders.length).2.2 ∧
    (add_order b oid OrderType.LIMIT Side.BUY q p stk).1.buy_queue =
      (if 0 < (getOrd (match_loop buyCross
          (b.orders ++ [⟨oid, .LIMIT, .BUY, q, p, stk⟩])
          b.sell_queue b.orders.length).1 b.orders.length).quantity then
        insert_ord (match_loop buyCross
          (b.orders ++ [⟨oid, .LIMIT, .BUY, q, p, stk⟩])
          b.sell_queue b.orders.length).1 b.buy_queue b.orders.length
      else b.buy_queue) := by
  have hside : (getOrd (b.orders ++ [(⟨oid, .LIMIT, .BUY, q, p, stk⟩ : Order)])
      b.orders.length).order_side = Side.BUY := by
    rw [getOrd_append_self]
  unfold add_order
  dsimp only
  rw [add_limit_order_buy _ _ hside]
  dsimp only
  split_ifs with h
  · exact ⟨rfl, rfl, rfl, rfl⟩
  · exact ⟨rfl, rfl, rfl, rfl⟩

theorem add_order_limit_sell_eq (b : BookSt) (oid : Int) (q : Int) (p : Price)
    (stk : String) :
    (add_order b oid OrderType.LIMIT Side.SELL q p stk).1.orders =
      (match_loop sellCross (b.orders ++ [⟨oid, .LIMIT, .SELL, q, p, stk⟩])
        b.buy_queue b.orders.length).1 ∧
    (add_order b oid OrderType.LIMIT Side.SELL q p stk).1.buy_queue =
      (match_loop sellCross (b.orders ++ [⟨oid, .LIMIT, .SELL, q, p, stk⟩])
        b.buy_queue b.orders.length).2.1 ∧
    (add_order b oid OrderType.LIMIT Side.SELL q p stk).2.2 =
      (match_loop sellCross (b.orders ++ [⟨oid, .LIMIT, .SELL, q, p, stk⟩])
        b.buy_queue b.orders.length).2.2 ∧
    (add_order b oid OrderType.LIMIT Side.SELL q p stk).1.sell_queue =
      (if 0 < (getOrd (match_loop sellCross
          (b.orders ++ [⟨oid, .LIMIT, .SELL, q, p, stk⟩])
          b.buy_queue b.orders.length).1 b.orders.length).quantity then
        insert_ord (match_loop sellCross
          (b.orders ++ [⟨oid, .LIMIT, .SELL, q, p, stk⟩])
          b.buy_queue b.orders.length).1 b.sell_queue b.orders.length
      else b.sell_queue) := by
  have hside : (getOrd (b.orders ++ [(⟨oid, .LIMIT, .SELL, q, p, stk⟩ : Order)])
      b.orders.length).order_side = Side.SELL := by
    rw [getOrd_append_self]
  unfold add_order
  dsimp only
  rw [add_limit_order_sell _ _ hside]
  dsimp only
  split_ifs with h
  · exact ⟨rfl, rfl, rfl, rfl⟩
  · exact ⟨rfl, rfl, rfl, rfl⟩

theorem add_order_market_buy_eq (b : BookSt) (oid : Int) (q : Int) (p : Price)
    (stk : String) :
    (add_order b oid OrderType.MARKET Side.BUY q p stk).1.orders =
      (market_loop (b.orders ++ [⟨oid, .MARKET, .BUY, q, p, stk⟩])
        b.sell_queue b.orders.length).1 ∧
    (add_order b oid OrderType.MARKET Side.BUY q p stk).1.sell_queue =
      (market_loop (b.orders ++ [⟨oid, .MARKET, .BUY, q, p, stk⟩])
        b.sell_queue b.orders.length).2.1 ∧
    (add_order b oid OrderType.MARKET Side.BUY q p stk).2.2 =
      (market_loop (b.orders ++ [⟨oid, .MARKET, .BUY, q, p, stk⟩])
        b.sell_queue b.orders.length).2.2 ∧
    (add_order b oid OrderType.MARKET Side.BUY q p stk).1.buy_queue =
      b.buy_queue := by
  have hside : (getOrd (b.orders ++ [(⟨oid, .MARKET, .BUY, q, p, stk⟩ : Order)])
      b.orders.length).order_side = Side.BUY := by
    rw [getOrd_append_self]
  unfold add_order
  dsimp only
  rw [add_market_order_buy _ _ hside]
  exact ⟨rfl, rfl, rfl, rfl⟩

theorem add_order_market_sell_eq (b : BookSt) (oid : Int) (q : Int) (p : Price)
    (stk : String) :
    (add_order b oid OrderType.MARKET Side.SELL q p stk).1.orders =
      (market_loop (b.orders ++ [⟨oid, .MARKET, .SELL, q, p, stk⟩])
        b.buy_queue b.orders.length).1 ∧
    (add_order b oid OrderType.MARKET Side.SELL q p stk).1.buy_queue =
      (market_loop (b.orders ++ [⟨oid, .MARKET, .SELL, q, p, stk⟩])
        b.buy_queue b.orders.length).2.1 ∧
    (add_order b oid OrderType.MARKET Side.SELL q p stk).2.2 =
      (market_loop (b.orders ++ [⟨oid, .MARKET, .SELL, q, p, stk⟩])
        b.buy_queue b.orders.length).2.2 ∧
    (add_order b oid OrderType.MARKET Side.SELL q p stk).1.sell_queue =
      b.sell_queue := by
  have hside : (getOrd (b.orders ++ [(⟨oid, .MARKET, .SELL, q, p, stk⟩ : Order)])
      b.orders.length).order_side = Side.SELL := by
    rw [getOrd_append_self]
  unfold add_order
  dsimp only
  rw [add_market_order_sell _ _ hside]
  exact ⟨rfl, rfl, rfl, rfl⟩


/-- A submission leaves every pre-existing order object's non-quantity fields
(including its id) unchanged. -/
theorem add_order_fields_old (b : BookSt) (oid : Int) (t : OrderType) (sd : Side)
    (q : Int) (p : Price) (stk : String) (r : Nat) (hr : r < b.orders.length) :
    (getOrd (add_order b oid t sd q p stk).1.orders r).order_id =
      (getOrd b.orders r).order_id ∧
    (getOrd (add_order b oid t sd q p stk).1.orders r).order_type =
      (getOrd b.orders r).order_type ∧
    (getOrd (add_order b oid t sd q p stk).1.orders r).order_side =
      (getOrd b.orders r).order_side ∧
    (getOrd (add_order b oid t sd q p stk).1.orders r).price =
      (getOrd b.orders r).price ∧
    (getOrd (add_order b oid t sd q p stk).1.orders r).stock =
      (getOrd b.orders r).stock := by
  cases t with
  | LIMIT =>
    cases sd with
    | BUY =>
      rw [(add_order_limit_buy_eq b oid q p stk).1]
      have hf := match_loop_fields buyCross b.sell_queue
        (b.orders ++ [⟨oid, .LIMIT, .BUY, q, p, stk⟩]) b.orders.length r
      have ha : getOrd (b.orders ++ [(⟨oid, .LIMIT, .BUY, q, p, stk⟩ : Order)]) r
          = getOrd b.orders r := getOrd_append_lt hr
      exact ⟨by rw [hf.1, ha], by rw [hf.2.1, ha], by rw [hf.2.2.1, ha],
        by rw [hf.2.2.2.1, ha], by rw [hf.2.2.2.2, ha]⟩
    | SELL =>
      rw [(add_order_limit_sell_eq b oid q p stk).1]
      have hf := match_loop_fields sellCross b.buy_queue
        (b.orders ++ [⟨oid, .LIMIT, .SELL, q, p, stk⟩]) b.orders.length r
      have ha : getOrd (b.orders ++ [(⟨oid, .LIMIT, .SELL, q, p, stk⟩ : Order)]) r
          = getOrd b.orders r := getOrd_append_lt hr
      exact ⟨by rw [hf.1, ha], by rw [hf.2.1, ha], by rw [hf.2.2.1, ha],
        by rw [hf.2.2.2.1, ha], by rw [hf.2.2.2.2, ha]⟩
  | MARKET =>
    cases sd with
    | BUY =>
      rw [(add_order_market_buy_eq b oid q p stk).1, market_loop_eq]
      have hf := match_loop_fields (fun _ _ => true) b.sell_queue
        (b.orders ++ [⟨oid, .MARKET, .BUY, q, p, stk⟩]) b.orders.length r
      have ha : getOrd (b.orders ++ [(⟨oid, .MARKET, .BUY, q, p, stk⟩ : Order)]) r
          = getOrd b.orders r := getOrd_append_lt hr
      exact ⟨by rw [hf.1, ha], by rw [hf.2.1, ha], by rw [hf.2.2.1, ha],
        by rw [hf.2.2.2.1, ha], by rw [hf.2.2.2.2, ha]⟩
    | SELL =>
      rw [(add_order_market_sell_eq b oid q p stk).1, market_loop_eq]
      have hf := match_loop_fields (fun _ _ => true) b.buy_queue
        (b.orders ++ [⟨oid, .MARKET, .SELL, q, p, stk⟩]) b.orders.length r
      have ha : getOrd (b.orders ++ [(⟨oid, .MARKET, .SELL, q, p, stk⟩ : Order)]) r
          = getOrd b.orders r := getOrd_append_lt hr
      exact ⟨by rw [hf.1, ha], by rw [hf.2.1, ha], by rw [hf.2.2.1, ha],
        by rw [hf.2.2.2.1, ha], by rw [hf.2.2.2.2, ha]⟩

/-- The order created by a submission keeps the id it was created with. -/
theorem add_order_id (b : BookSt) (oid : Int) (t : OrderType) (sd : Side)
    (q : Int) (p : Price) (stk : String) :
    (getOrd (add_order b oid t sd q p stk).1.orders b.orders.length).order_id
      = oid := by
  cases t with
  | LIMIT =>
    cases sd with
    | BUY =>
      rw [(add_order_limit_buy_eq b oid q p stk).1]
      have hf := match_loop_fields buyCross b.sell_queue
        (b.orders ++ [⟨oid, .LIMIT, .BUY, q, p, stk⟩]) b.orders.length
          b.orders.length
      rw [hf.1, getOrd_append_self]
    | SELL =>
      rw [(add_order_limit_sell_eq b oid q p stk).1]
      have hf := match_loop_fields sellCross b.buy_queue
        (b.orders ++ [⟨oid, .LIMIT, .SELL, q, p, stk⟩]) b.orders.length
          b.orders.length
      rw [hf.1, getOrd_append_self]
  | MARKET =>
    cases sd with
    | BUY =>
      rw [(add_order_market_buy_eq b oid q p stk).1, market_loop_eq]
      have hf := match_loop_fields (fun _ _ => true) b.sell_queue
        (b.orders ++ [⟨oid, .MARKET, .BUY, q, p, stk⟩]) b.orders.length
          b.orders.length
      rw [hf.1, getOrd_append_self]
    | SELL =>
      rw [(add_order_market_sell_eq b oid q p stk).1, market_loop_eq]
      have hf := match_loop_fields (fun _ _ => true) b.buy_queue
        (b.orders ++ [⟨oid, .MARKET, .SELL, q, p, stk⟩]) b.orders.length
          b.orders.length
      rw [hf.1, getOrd_append_self]


/-! ### Claim C1 -/

/-- Claim C1: for every sequence of submit-limit and submit-market commands,
each with positive quantity, after any call returns the best bid price among
non-zero-quantity entries of the buy queue is strictly less than the best ask
price among non-zero-quantity entries of the sell queue whenever both exist:
the book is never left crossed.  (`bestBid` is the maximum real bid price,
`bestAsk` the minimum real ask price.) -/
theorem C1_never_crossed (ops : List Op) (hops : ∀ op ∈ ops, posSubmit op)
    (pa pb : Price) (hb : bestBid (run ops).book = some pa)
    (ha : bestAsk (run ops).book = some pb) : pa < pb := by
  have hINV := (run_EngINV ops).2
  have hpa : pa ∈ realPrices (run ops).book.orders (run ops).book.buy_queue :=
    List.max?_mem (fun a b => max_choice a b) hb
  have hpb : pb ∈ realPrices (run ops).book.orders (run ops).book.sell_queue :=
    List.min?_mem (fun a b => min_choice a b) ha
  obtain ⟨r1, hr1, hq1, hp1⟩ := mem_realPrices hpa
  obtain ⟨r2, hr2, hq2, hp2⟩ := mem_realPrices hpb
  rw [← hp1, ← hp2]
  exact hINV.uncrossed r1 hr1 r2 hr2 hq1 hq2

/-- Concrete command sequence for the C1 witness: a resting bid at 10 and a
resting ask at 20. -/
def opsC1 : List Op := [Op.limit Side.BUY 10 5, Op.limit Side.SELL 20 5]

theorem C1_witness :
    (∀ op ∈ opsC1, posSubmit op) ∧ ((10 : Price) < (20 : Price)) :=
  ⟨by decide, C1_never_crossed opsC1 (by decide) 10 20 (by decide) (by decide)⟩

/-! ### Claim C10 -/

theorem order_eta_qty (o : Order) (h : o.quantity = 0) :
    { o with quantity := 0 } = o := by
  cases o with
  | mk a b c d e f =>
    dsimp only at h
    rw [h]

theorem set_getOrd_self : ∀ (s : Store) (r : Nat), r < s.length →
    s.set r (getOrd s r) = s := by
  intro s
  induction s with
  | nil => intro r hr; exact absurd hr (by simp)
  | cons x xs ih =>
    intro r hr
    cases r with
    | zero => rfl
    | succ k =>
      show x :: xs.set k (getOrd xs k) = x :: xs
      rw [ih k (by simpa using hr)]

theorem setQty_setQty (s : Store) (r : Nat) (q1 q2 : Int) :
    setQty (setQty s r q1) r q2 = setQty s r q2 := by
  by_cases hr : r < s.length
  · show (setQty s r q1).set r { getOrd (setQty s r q1) r with quantity := q2 }
      = s.set r { getOrd s r with quantity := q2 }
    rw [getOrd_setQty_self hr]
    show (s.set r _).set r _ = _
    rw [List.set_set]
  · rw [setQty_oob (Nat.le_of_not_lt hr), setQty_oob (Nat.le_of_not_lt hr)]

/-- Claim C10: cancellation (`Book.delete_order`) sets the target's quantity
to 0, leaves both queues (and the target's other fields, and every other
order) untouched, is idempotent, and cancelling an already-zero order leaves
the entire book state unchanged. -/
theorem C10_cancel (b : BookSt) (r : Nat) :
    (delete_order b r).buy_queue = b.buy_queue ∧
    (delete_order b r).sell_queue = b.sell_queue ∧
    (delete_order b r).stock = b.stock ∧
    (getOrd (delete_order b r).orders r).quantity = 0 ∧
    (getOrd (delete_order b r).orders r).order_id = (getOrd b.orders r).order_id ∧
    (getOrd (delete_order b r).orders r).order_type =
      (getOrd b.orders r).order_type ∧
    (getOrd (delete_order b r).orders r).order_side =
      (getOrd b.orders r).order_side ∧
    (getOrd (delete_order b r).orders r).price = (getOrd b.orders r).price ∧
    (getOrd (delete_order b r).orders r).stock = (getOrd b.orders r).stock ∧
    (∀ t, t ≠ r → getOrd (delete_order b r).orders t = getOrd b.orders t) ∧
    delete_order (delete_order b r) r = delete_order b r ∧
    ((getOrd b.orders r).quantity = 0 → delete_order b r = b) := by
  have hf := fields_setQty b.orders r 0 r
  refine ⟨rfl, rfl, rfl, ?_, hf.1, hf.2.1, hf.2.2.1, hf.2.2.2.1, hf.2.2.2.2,
    ?_, ?_, ?_⟩
  · by_cases hr : r < b.orders.length
    · exact quantity_setQty_self hr
    · show (getOrd (setQty b.orders r 0) r).quantity = 0
      rw [setQty_oob (Nat.le_of_not_lt hr), getOrd_oob (Nat.le_of_not_lt hr)]
      rfl
  · intro t ht
    exact getOrd_setQty_ne ht
  · show ({ b with orders := setQty (setQty b.orders r 0) r 0 } : BookSt) = _
    rw [setQty_setQty]
    rfl
  · intro h0
    show ({ b with orders := setQty b.orders r 0 } : BookSt) = b
    by_cases hr : r < b.orders.length
    · unfold setQty
      rw [order_eta_qty _ h0, set_getOrd_self b.orders r hr]
    · rw [setQty_oob (Nat.le_of_not_lt hr)]

/-- Concrete book for the C10 witness: one resting bid, already cancelled. -/
def bookC10 : BookSt := (run [Op.limit Side.BUY 10 100, Op.cancel 1]).book

theorem C10_witness :
    delete_order bookC10 0 = bookC10 ∧
    (getOrd (delete_order bookC10 0).orders 0).quantity = 0 := by
  obtain ⟨-, -, -, h4, -, -, -, -, -, -, -, h12⟩ := C10_cancel bookC10 0
  exact ⟨h12 (by decide), h4⟩

/-! ### Claim C2 -/

/-- `Book.modify_order` written as retag-tombstone-resubmit (book.py lines
196-207): the replacement is created with the original order's id, and the
original order's id is set to -1 before it is tombstoned. -/
theorem modify_order_eq (b : BookSt) (r : Nat) (q : Int) (p : Price) :
    modify_order b r q p =
      add_order
        (delete_order
          { b with
            orders := b.orders.set r { getOrd b.orders r with order_id := -1 } }
          r)
        (getOrd b.orders r).order_id (getOrd b.orders r).order_type
        (getOrd b.orders r).order_side q p (getOrd b.orders r).stock := rfl

theorem retag_delete_len (b : BookSt) (r : Nat) :
    (delete_order
      { b with
        orders := b.orders.set r { getOrd b.orders r with order_id := -1 } }
      r).orders.length = b.orders.length := by
  unfold delete_order
  dsimp only
  rw [length_setQty, List.length_set]

theorem retag_delete_get_ne (b : BookSt) (r t : Nat) (ht : t ≠ r) :
    getOrd (delete_order
      { b with
        orders := b.orders.set r { getOrd b.orders r with order_id := -1 } }
      r).orders t = getOrd b.orders t := by
  unfold delete_order
  dsimp only
  rw [getOrd_setQty_ne ht, getOrd_set_ne ht]

theorem retag_delete_get_self (b : BookSt) (r : Nat) (hrl : r < b.orders.length) :
    getOrd (delete_order
      { b with
        orders := b.orders.set r { getOrd b.orders r with order_id := -1 } }
      r).orders r = { getOrd b.orders r with order_id := -1, quantity := 0 } := by
  unfold delete_order
  dsimp only
  rw [getOrd_setQty_self (by rw [List.length_set]; exact hrl), getOrd_set_self hrl]

/-- Claim C2 (amended): the replacement order created by
`Book.modify_order`'s cancel-and-reinsert path reuses the original order's id
(no new identity is assigned), while the tombstoned original is re-identified
as -1; consequently the replacement ranks among equal-price resting orders by
the original id, retaining rather than losing its time priority. -/
theorem C2_modify_id (b : BookSt) (r : Nat) (q : Int) (p : Price) (h : INV b)
    (hact : (getOrd b.orders r).quantity ≠ 0) :
    (modify_order b r q p).2.1 = b.orders.length ∧
    (getOrd (modify_order b r q p).1.orders (modify_order b r q p).2.1).order_id
      = (getOrd b.orders r).order_id ∧
    (getOrd (modify_order b r q p).1.orders r).order_id = -1 := by
  have hrl : r < b.orders.length := lt_length_of_qty_ne hact
  rw [modify_order_eq]
  refine ⟨?_, ?_, ?_⟩
  · rw [add_order_ref, retag_delete_len]
  · rw [add_order_ref, retag_delete_len, ← retag_delete_len b r, add_order_id]
  · have hfo := add_order_fields_old
      (delete_order
        { b with
          orders := b.orders.set r { getOrd b.orders r with order_id := -1 } }
        r)
      (getOrd b.orders r).order_id (getOrd b.orders r).order_type
      (getOrd b.orders r).order_side q p (getOrd b.orders r).stock r
      (by rw [retag_delete_len]; exact hrl)
    rw [hfo.1, retag_delete_get_self b r hrl]

/-- Command sequence for the C2 counterexample: two resting bids at price 10
(ids 1 and 2), then a modify of order 1 at the same price. -/
def opsC2 : List Op :=
  [Op.limit Side.BUY 10 100, Op.limit Side.BUY 10 50, Op.modify 1 10 80]

/-- Claim C2 is false on the code: after the modify, the replacement (handle
2) carries id 1 — an id already assigned to the original order, not a new
identity — and at the same price it ranks before the untouched pre-existing
order (handle 1, id 2) in matching priority, as both the queue layout and
`Order.__lt__` show. -/
theorem C2_cex :
    (getOrd (run opsC2).book.orders 2).order_id = 1 ∧
    (getOrd (run opsC2).book.orders 1).order_id = 2 ∧
    (getOrd (run opsC2).book.orders 2).price =
      (getOrd (run opsC2).book.orders 1).price ∧
    0 < (getOrd (run opsC2).book.orders 2).quantity ∧
    0 < (getOrd (run opsC2).book.orders 1).quantity ∧
    (run opsC2).book.buy_queue = [0, 2, 1] ∧
    Order.lt (getOrd (run opsC2).book.orders 2)
      (getOrd (run opsC2).book.orders 1) = true := by
  decide

/-- Book and handle for the C2 witness: a resting bid with id 1. -/
def bookC2 : BookSt := (run [Op.limit Side.BUY 10 100]).book

theorem C2_witness :
    (modify_order bookC2 0 80 10).2.1 = 1 ∧
    (getOrd (modify_order bookC2 0 80 10).1.orders
      (modify_order bookC2 0 80 10).2.1).order_id = 1 ∧
    (getOrd (modify_order bookC2 0 80 10).1.orders 0).order_id = -1 := by
  have h := C2_modify_id bookC2 0 80 10 (run_EngINV [Op.limit Side.BUY 10 100]).2
    (by decide)
  exact ⟨by rw [h.1]; decide, by rw [h.2.1]; decide, h.2.2⟩


/-! ### Claim C3 -/

/-- A shared concrete book: one resting ask of 100 shares at price 10. -/
def bookAsk : BookSt := (run [Op.limit Side.SELL 10 100]).book

/-- Claim C3 (amended): for every single submission (limit or market) with
original quantity q > 0 on an invariant-satisfying book, the sum of the
returned trade quantities plus the submitted order's remaining quantity
equals q, and the remainder is nonnegative.  For a limit order the remainder
rests iff it is positive, so the claim's original formula holds there; a
market order's positive remainder is discarded without resting, which is
where the original formula fails. -/
theorem C3_conservation (b : BookSt) (oid : Int) (t : OrderType) (sd : Side)
    (q : Int) (p : Price) (stk : String) (h : INV b) (hq : 0 < q) :
    sumQ (add_order b oid t sd q p stk).2.2 +
      (getOrd (add_order b oid t sd q p stk).1.orders
        (add_order b oid t sd q p stk).2.1).quantity = q ∧
    0 ≤ (getOrd (add_order b oid t sd q p stk).1.orders
        (add_order b oid t sd q p stk).2.1).quantity := by
  rw [add_order_ref]
  have hfb : b.orders.length ∉ b.buy_queue :=
    fun hc => absurd (h.validB _ hc) (lt_irrefl _)
  have hfs : b.orders.length ∉ b.sell_queue :=
    fun hc => absurd (h.validS _ hc) (lt_irrefl _)
  cases t with
  | LIMIT =>
    cases sd with
    | BUY =>
      rw [(add_order_limit_buy_eq b oid q p stk).1,
        (add_order_limit_buy_eq b oid q p stk).2.2.1]
      have hcons := match_loop_conserve buyCross b.sell_queue
        (b.orders ++ [⟨oid, .LIMIT, .BUY, q, p, stk⟩]) b.orders.length hfs
      have hnn := match_loop_qty_nonneg buyCross b.sell_queue
        (b.orders ++ [⟨oid, .LIMIT, .BUY, q, p, stk⟩]) b.orders.length hfs
      rw [getOrd_append_self] at hcons hnn
      exact ⟨hcons, hnn (show (0:Int) ≤ q by omega)⟩
    | SELL =>
      rw [(add_order_limit_sell_eq b oid q p stk).1,
        (add_order_limit_sell_eq b oid q p stk).2.2.1]
      have hcons := match_loop_conserve sellCross b.buy_queue
        (b.orders ++ [⟨oid, .LIMIT, .SELL, q, p, stk⟩]) b.orders.length hfb
      have hnn := match_loop_qty_nonneg sellCross b.buy_queue
        (b.orders ++ [⟨oid, .LIMIT, .SELL, q, p, stk⟩]) b.orders.length hfb
      rw [getOrd_append_self] at hcons hnn
      exact ⟨hcons, hnn (show (0:Int) ≤ q by omega)⟩
  | MARKET =>
    cases sd with
    | BUY =>
      rw [(add_order_market_buy_eq b oid q p stk).1,
        (add_order_market_buy_eq b oid q p stk).2.2.1, market_loop_eq]
      have hcons := match_loop_conserve (fun _ _ => true) b.sell_queue
        (b.orders ++ [⟨oid, .MARKET, .BUY, q, p, stk⟩]) b.orders.length hfs
      have hnn := match_loop_qty_nonneg (fun _ _ => true) b.sell_queue
        (b.orders ++ [⟨oid, .MARKET, .BUY, q, p, stk⟩]) b.orders.length hfs
      rw [getOrd_append_self] at hcons hnn
      exact ⟨hcons, hnn (show (0:Int) ≤ q by omega)⟩
    | SELL =>
      rw [(add_order_market_sell_eq b oid q p stk).1,
        (add_order_market_sell_eq b oid q p stk).2.2.1, market_loop_eq]
      have hcons := match_loop_conserve (fun _ _ => true) b.buy_queue
        (b.orders ++ [⟨oid, .MARKET, .SELL, q, p, stk⟩]) b.orders.length hfb
      have hnn := match_loop_qty_nonneg (fun _ _ => true) b.buy_queue
        (b.orders ++ [⟨oid, .MARKET, .SELL, q, p, stk⟩]) b.orders.length hfb
      rw [getOrd_append_self] at hcons hnn
      exact ⟨hcons, hnn (show (0:Int) ≤ q by omega)⟩

/-- Claim C3 as stated is false on the code: a market buy of 150 against a
single resting ask of 100 produces trades totalling 100, and the order rests
in no queue (it is discarded), so the claim's formula gives
sum + 0 = 100 ≠ 150. -/
theorem C3_cex :
    sumQ (add_order bookAsk 2 OrderType.MARKET Side.BUY 150 ⊤ "STOCK").2.2
      = 100 ∧
    (add_order bookAsk 2 OrderType.MARKET Side.BUY 150 ⊤ "STOCK").2.1 ∉
      (add_order bookAsk 2 OrderType.MARKET Side.BUY 150 ⊤ "STOCK").1.buy_queue ∧
    (add_order bookAsk 2 OrderType.MARKET Side.BUY 150 ⊤ "STOCK").2.1 ∉
      (add_order bookAsk 2 OrderType.MARKET Side.BUY 150 ⊤ "STOCK").1.sell_queue ∧
    sumQ (add_order bookAsk 2 OrderType.MARKET Side.BUY 150 ⊤ "STOCK").2.2 +
      0 ≠ (150 : Int) := by
  decide

theorem C3_witness :
    sumQ (add_order bookAsk 2 OrderType.LIMIT Side.BUY 150 10 "STOCK").2.2 +
      (getOrd (add_order bookAsk 2 OrderType.LIMIT Side.BUY 150 10 "STOCK").1.orders
        (add_order bookAsk 2 OrderType.LIMIT Side.BUY 150 10 "STOCK").2.1).quantity
      = 150 :=
  (C3_conservation bookAsk 2 OrderType.LIMIT Side.BUY 150 10 "STOCK"
    (run_EngINV [Op.limit Side.SELL 10 100]).2 (by decide)).1

/-! ### Claim C8 -/

/-- Claim C8 (amended): when the opposite queue's top is a tombstone
(quantity 0), it is popped and discarded without a trade exactly when the
loop condition holds, i.e. the incoming order still has positive quantity and
the tombstone's price passes the crossing test; if the condition fails, the
loop stops and the tombstone stays in the queue.  Tombstones never contribute
a trade: every recorded trade has positive quantity. -/
theorem C8_tombstone (cmp : Price → Price → Bool) (s : Store) (top : Nat)
    (rest : List Nat) (o : Nat) (ht : (getOrd s top).quantity = 0) :
    (0 < (getOrd s o).quantity ∧
        cmp (getOrd s o).price (getOrd s top).price = true →
      match_loop cmp s (top :: rest) o = match_loop cmp s rest o) ∧
    (¬(0 < (getOrd s o).quantity ∧
        cmp (getOrd s o).price (getOrd s top).price = true) →
      match_loop cmp s (top :: rest) o = (s, top :: rest, [])) ∧
    (∀ t ∈ (match_loop cmp s (top :: rest) o).2.2, 0 < t.1) := by
  refine ⟨?_, ?_, match_loop_trades_pos cmp (top :: rest) s o⟩
  · intro hcond
    rw [match_loop_cons, if_pos hcond, if_pos (by omega), if_neg (by omega)]
  · intro hcond
    rw [match_loop_cons, if_neg hcond]

/-- Store for the C8 witness: a sell tombstone at price 10 and an incoming
buy of 5 at price 20 that crosses it. -/
def storeC8 : Store :=
  [⟨1, .LIMIT, .SELL, 0, 10, "STOCK"⟩, ⟨2, .LIMIT, .BUY, 5, 20, "STOCK"⟩]

theorem C8_witness :
    match_loop buyCross storeC8 [0] 1 = match_loop buyCross storeC8 [] 1 :=
  (C8_tombstone buyCross storeC8 0 [] 1 (by decide)).1 (by decide)

/-- Command sequence for the C8 counterexample: a cancelled ask at 20 on top
of the sell queue, then a buy at 10 that does not cross it. -/
def opsC8 : List Op :=
  [Op.limit Side.SELL 20 100, Op.cancel 1, Op.limit Side.BUY 10 50]

/-- Claim C8 is false on the code as stated: during the buy submission the
sell queue's top is the tombstone (handle 0), yet after the call it is still
in the queue — the crossing test is evaluated first and fails (10 is below
20), so the loop stops without popping the tombstone.  Tombstones are only
discarded when they pass the crossing test. -/
theorem C8_cex :
    (run opsC8).book.sell_queue = [0] ∧
    (getOrd (run opsC8).book.orders 0).quantity = 0 ∧
    (run opsC8).book.buy_queue = [1] := by
  decide


/-! ### Claim C4 -/

/-- Claim C4: every trade produced by a limit or market submission is priced
at a pre-existing real (positive-quantity) resting order of the opposite
queue — the resting side sets the price — and its quantity is the minimum of
the incoming order's remaining quantity at the moment of the match (q minus
the previously traded total) and that resting order's quantity. -/
theorem C4_trade_terms (b : BookSt) (oid : Int) (t : OrderType) (sd : Side)
    (q : Int) (p : Price) (stk : String) (h : INV b) :
    ∀ i tr, (add_order b oid t sd q p stk).2.2[i]? = some tr →
      ∃ r ∈ oppQueue b sd, 0 < (getOrd b.orders r).quantity ∧
        tr.2 = (getOrd b.orders r).price ∧
        tr.1 = min (q - sumQ ((add_order b oid t sd q p stk).2.2.take i))
          ((getOrd b.orders r).quantity) := by
  have hfb : b.orders.length ∉ b.buy_queue :=
    fun hc => absurd (h.validB _ hc) (lt_irrefl _)
  have hfs : b.orders.length ∉ b.sell_queue :=
    fun hc => absurd (h.validS _ hc) (lt_irrefl _)
  cases t with
  | LIMIT =>
    cases sd with
    | BUY =>
      rw [(add_order_limit_buy_eq b oid q p stk).2.2.1]
      intro i tr htr
      obtain ⟨r, hrmem, hrq, hrp, hrqty⟩ := match_loop_trades_src buyCross
        b.sell_queue (b.orders ++ [⟨oid, .LIMIT, .BUY, q, p, stk⟩])
        b.orders.length h.nodupS hfs i tr htr
      have hget : getOrd (b.orders ++ [(⟨oid, .LIMIT, .BUY, q, p, stk⟩ : Order)]) r
          = getOrd b.orders r := getOrd_append_lt (h.validS r hrmem)
      rw [hget] at hrq hrp hrqty
      rw [getOrd_append_self] at hrqty
      exact ⟨r, hrmem, hrq, hrp, hrqty⟩
    | SELL =>
      rw [(add_order_limit_sell_eq b oid q p stk).2.2.1]
      intro i tr htr
      obtain ⟨r, hrmem, hrq, hrp, hrqty⟩ := match_loop_trades_src sellCross
        b.buy_queue (b.orders ++ [⟨oid, .LIMIT, .SELL, q, p, stk⟩])
        b.orders.length h.nodupB hfb i tr htr
      have hget : getOrd (b.orders ++ [(⟨oid, .LIMIT, .SELL, q, p, stk⟩ : Order)]) r
          = getOrd b.orders r := getOrd_append_lt (h.validB r hrmem)
      rw [hget] at hrq hrp hrqty
      rw [getOrd_append_self] at hrqty
      exact ⟨r, hrmem, hrq, hrp, hrqty⟩
  | MARKET =>
    cases sd with
    | BUY =>
      rw [(add_order_market_buy_eq b oid q p stk).2.2.1, market_loop_eq]
      intro i tr htr
      obtain ⟨r, hrmem, hrq, hrp, hrqty⟩ := match_loop_trades_src
        (fun _ _ => true) b.sell_queue
        (b.orders ++ [⟨oid, .MARKET, .BUY, q, p, stk⟩])
        b.orders.length h.nodupS hfs i tr htr
      have hget : getOrd (b.orders ++ [(⟨oid, .MARKET, .BUY, q, p, stk⟩ : Order)]) r
          = getOrd b.orders r := getOrd_append_lt (h.validS r hrmem)
      rw [hget] at hrq hrp hrqty
      rw [getOrd_append_self] at hrqty
      exact ⟨r, hrmem, hrq, hrp, hrqty⟩
    | SELL =>
      rw [(add_order_market_sell_eq b oid q p stk).2.2.1, market_loop_eq]
      intro i tr htr
      obtain ⟨r, hrmem, hrq, hrp, hrqty⟩ := match_loop_trades_src
        (fun _ _ => true) b.buy_queue
        (b.orders ++ [⟨oid, .MARKET, .SELL, q, p, stk⟩])
        b.orders.length h.nodupB hfb i tr htr
      have hget : getOrd (b.orders ++ [(⟨oid, .MARKET, .SELL, q, p, stk⟩ : Order)]) r
          = getOrd b.orders r := getOrd_append_lt (h.validB r hrmem)
      rw [hget] at hrq hrp hrqty
      rw [getOrd_append_self] at hrqty
      exact ⟨r, hrmem, hrq, hrp, hrqty⟩

theorem C4_witness :
    ∃ r ∈ oppQueue bookAsk Side.BUY, 0 < (getOrd bookAsk.orders r).quantity ∧
      ((100 : Int), ((10:ℚ) : Price)).2 = (getOrd bookAsk.orders r).price ∧
      ((100 : Int), ((10:ℚ) : Price)).1 =
        min ((150 : Int) - sumQ ((add_order bookAsk 2 OrderType.LIMIT Side.BUY
            150 10 "STOCK").2.2.take 0))
          (getOrd bookAsk.orders r).quantity :=
  C4_trade_terms bookAsk 2 OrderType.LIMIT Side.BUY 150 10 "STOCK"
    (run_EngINV [Op.limit Side.SELL 10 100]).2 0 (100, ((10:ℚ) : Price))
    (by decide)

/-! ### Claim C9 -/

/-- Claim C9: a market submission matches any real opposite liquidity
unconditionally — after the call either the submitted quantity is exhausted
or the opposite queue is empty — the market order is never inserted into
either queue, and the unmatched remainder creates no resting order. -/
theorem C9_market (b : BookSt) (oid : Int) (sd : Side) (q : Int) (p : Price)
    (stk : String) (h : INV b) (hq : 0 < q) :
    ((getOrd (add_order b oid OrderType.MARKET sd q p stk).1.orders
        b.orders.length).quantity = 0 ∨
      oppQueue (add_order b oid OrderType.MARKET sd q p stk).1 sd = []) ∧
    b.orders.length ∉ (add_order b oid OrderType.MARKET sd q p stk).1.buy_queue ∧
    b.orders.length ∉ (add_order b oid OrderType.MARKET sd q p stk).1.sell_queue ∧
    (add_order b oid OrderType.MARKET sd q p stk).2.1 = b.orders.length := by
  have hfb : b.orders.length ∉ b.buy_queue :=
    fun hc => absurd (h.validB _ hc) (lt_irrefl _)
  have hfs : b.orders.length ∉ b.sell_queue :=
    fun hc => absurd (h.validS _ hc) (lt_irrefl _)
  cases sd with
  | BUY =>
    have heq := add_order_market_buy_eq b oid q p stk
    refine ⟨?_, ?_, ?_, add_order_ref ..⟩
    · rw [heq.1, market_loop_eq]
      show _ ∨ (add_order b oid OrderType.MARKET Side.BUY q p stk).1.sell_queue = []
      rw [heq.2.1, market_loop_eq]
      cases hl : (match_loop (fun _ _ => true)
          (b.orders ++ [⟨oid, .MARKET, .BUY, q, p, stk⟩])
          b.sell_queue b.orders.length).2.1 with
      | nil => exact Or.inr rfl
      | cons hd tl =>
        left
        have hstop := match_loop_stop (fun _ _ => true) b.sell_queue
          (b.orders ++ [⟨oid, .MARKET, .BUY, q, p, stk⟩]) b.orders.length
          hd tl hl
        have hnn := match_loop_qty_nonneg (fun _ _ => true) b.sell_queue
          (b.orders ++ [⟨oid, .MARKET, .BUY, q, p, stk⟩]) b.orders.length hfs
          (by rw [getOrd_append_self]; show (0:Int) ≤ q; omega)
        have hle : ¬ (0 < (getOrd (match_loop (fun _ _ => true)
            (b.orders ++ [⟨oid, .MARKET, .BUY, q, p, stk⟩])
            b.sell_queue b.orders.length).1 b.orders.length).quantity) :=
          fun hp => hstop ⟨hp, rfl⟩
        omega
    · rw [heq.2.2.2]
      exact hfb
    · rw [heq.2.1, market_loop_eq]
      intro hc
      exact hfs ((match_loop_suffix (fun _ _ => true) b.sell_queue
        (b.orders ++ [⟨oid, .MARKET, .BUY, q, p, stk⟩])
        b.orders.length).sublist.subset hc)
  | SELL =>
    have heq := add_order_market_sell_eq b oid q p stk
    refine ⟨?_, ?_, ?_, add_order_ref ..⟩
    · rw [heq.1, market_loop_eq]
      show _ ∨ (add_order b oid OrderType.MARKET Side.SELL q p stk).1.buy_queue = []
      rw [heq.2.1, market_loop_eq]
      cases hl : (match_loop (fun _ _ => true)
          (b.orders ++ [⟨oid, .MARKET, .SELL, q, p, stk⟩])
          b.buy_queue b.orders.length).2.1 with
      | nil => exact Or.inr rfl
      | cons hd tl =>
        left
        have hstop := match_loop_stop (fun _ _ => true) b.buy_queue
          (b.orders ++ [⟨oid, .MARKET, .SELL, q, p, stk⟩]) b.orders.length
          hd tl hl
        have hnn := match_loop_qty_nonneg (fun _ _ => true) b.buy_queue
          (b.orders ++ [⟨oid, .MARKET, .SELL, q, p, stk⟩]) b.orders.length hfb
          (by rw [getOrd_append_self]; show (0:Int) ≤ q; omega)
        have hle : ¬ (0 < (getOrd (match_loop (fun _ _ => true)
            (b.orders ++ [⟨oid, .MARKET, .SELL, q, p, stk⟩])
            b.buy_queue b.orders.length).1 b.orders.length).quantity) :=
          fun hp => hstop ⟨hp, rfl⟩
        omega
    · rw [heq.2.1, market_loop_eq]
      intro hc
      exact hfb ((match_loop_suffix (fun _ _ => true) b.buy_queue
        (b.orders ++ [⟨oid, .MARKET, .SELL, q, p, stk⟩])
        b.orders.length).sublist.subset hc)
    · rw [heq.2.2.2]
      exact hfs

theorem C9_witness :
    ((getOrd (add_order bookAsk 2 OrderType.MARKET Side.BUY 150 ⊤
        "STOCK").1.orders bookAsk.orders.length).quantity = 0 ∨
      oppQueue (add_order bookAsk 2 OrderType.MARKET Side.BUY 150 ⊤
        "STOCK").1 Side.BUY = []) ∧
    bookAsk.orders.length ∉
      (add_order bookAsk 2 OrderType.MARKET Side.BUY 150 ⊤ "STOCK").1.buy_queue ∧
    bookAsk.orders.length ∉
      (add_order bookAsk 2 OrderType.MARKET Side.BUY 150 ⊤ "STOCK").1.sell_queue ∧
    (add_order bookAsk 2 OrderType.MARKET Side.BUY 150 ⊤ "STOCK").2.1 =
      bookAsk.orders.length :=
  C9_market bookAsk 2 Side.BUY 150 ⊤ "STOCK"
    (run_EngINV [Op.limit Side.SELL 10 100]).2 (by decide)


/-! ### Claim C7 -/

/-- Claim C7 (amended): `Book.add_order` always returns the created order
object as its first component — there is no "none" — and for a limit
submission the created order rests in its own side's queue iff its quantity
after matching is positive; it never appears in the opposite queue. -/
theorem C7_return (b : BookSt) (oid : Int) (sd : Side) (q : Int) (p : Price)
    (stk : String) (h : INV b) :
    (add_order b oid OrderType.LIMIT sd q p stk).2.1 = b.orders.length ∧
    ((add_order b oid OrderType.LIMIT sd q p stk).2.1 ∈
        ownQueue (add_order b oid OrderType.LIMIT sd q p stk).1 sd ↔
      0 < (getOrd (add_order b oid OrderType.LIMIT sd q p stk).1.orders
        (add_order b oid OrderType.LIMIT sd q p stk).2.1).quantity) ∧
    (add_order b oid OrderType.LIMIT sd q p stk).2.1 ∉
      oppQueue (add_order b oid OrderType.LIMIT sd q p stk).1 sd := by
  have hfb : b.orders.length ∉ b.buy_queue :=
    fun hc => absurd (h.validB _ hc) (lt_irrefl _)
  have hfs : b.orders.length ∉ b.sell_queue :=
    fun hc => absurd (h.validS _ hc) (lt_irrefl _)
  refine ⟨add_order_ref .., ?_, ?_⟩
  · rw [add_order_ref]
    cases sd with
    | BUY =>
      show b.orders.length ∈
          (add_order b oid OrderType.LIMIT Side.BUY q p stk).1.buy_queue ↔ _
      rw [(add_order_limit_buy_eq b oid q p stk).2.2.2,
        (add_order_limit_buy_eq b oid q p stk).1]
      split_ifs with h1
      · exact iff_of_true ((mem_insert_ord _ _ _ _).mpr (Or.inl rfl)) h1
      · exact iff_of_false hfb h1
    | SELL =>
      show b.orders.length ∈
          (add_order b oid OrderType.LIMIT Side.SELL q p stk).1.sell_queue ↔ _
      rw [(add_order_limit_sell_eq b oid q p stk).2.2.2,
        (add_order_limit_sell_eq b oid q p stk).1]
      split_ifs with h1
      · exact iff_of_true ((mem_insert_ord _ _ _ _).mpr (Or.inl rfl)) h1
      · exact iff_of_false hfs h1
  · rw [add_order_ref]
    cases sd with
    | BUY =>
      show b.orders.length ∉
        (add_order b oid OrderType.LIMIT Side.BUY q p stk).1.sell_queue
      rw [(add_order_limit_buy_eq b oid q p stk).2.1]
      intro hc
      exact hfs ((match_loop_suffix buyCross b.sell_queue
        (b.orders ++ [⟨oid, .LIMIT, .BUY, q, p, stk⟩])
        b.orders.length).sublist.subset hc)
    | SELL =>
      show b.orders.length ∉
        (add_order b oid OrderType.LIMIT Side.SELL q p stk).1.buy_queue
      rw [(add_order_limit_sell_eq b oid q p stk).2.1]
      intro hc
      exact hfb ((match_loop_suffix sellCross b.buy_queue
        (b.orders ++ [⟨oid, .LIMIT, .SELL, q, p, stk⟩])
        b.orders.length).sublist.subset hc)

theorem C7_witness :
    (add_order bookAsk 2 OrderType.LIMIT Side.BUY 150 10 "STOCK").2.1 =
      bookAsk.orders.length ∧
    ((add_order bookAsk 2 OrderType.LIMIT Side.BUY 150 10 "STOCK").2.1 ∈
        ownQueue (add_order bookAsk 2 OrderType.LIMIT Side.BUY 150 10
          "STOCK").1 Side.BUY ↔
      0 < (getOrd (add_order bookAsk 2 OrderType.LIMIT Side.BUY 150 10
          "STOCK").1.orders
        (add_order bookAsk 2 OrderType.LIMIT Side.BUY 150 10 "STOCK").2.1).quantity) ∧
    (add_order bookAsk 2 OrderType.LIMIT Side.BUY 150 10 "STOCK").2.1 ∉
      oppQueue (add_order bookAsk 2 OrderType.LIMIT Side.BUY 150 10
        "STOCK").1 Side.BUY :=
  C7_return bookAsk 2 Side.BUY 150 10 "STOCK"
    (run_EngINV [Op.limit Side.SELL 10 100]).2

/-- Claim C7 is false on the code as stated: a buy limit of 100 at 10 against
the resting ask of 100 at 10 matches fully, yet the call still returns the
created order (handle 1) as its first component — not "none" — with quantity
0 and resting in no queue. -/
theorem C7_cex :
    (add_order bookAsk 2 OrderType.LIMIT Side.BUY 100 10 "STOCK").2.1 = 1 ∧
    (getOrd (add_order bookAsk 2 OrderType.LIMIT Side.BUY 100 10
      "STOCK").1.orders 1).quantity = 0 ∧
    1 ∉ (add_order bookAsk 2 OrderType.LIMIT Side.BUY 100 10 "STOCK").1.buy_queue ∧
    1 ∉ (add_order bookAsk 2 OrderType.LIMIT Side.BUY 100 10 "STOCK").1.sell_queue := by
  decide


/-! ### Claim C6 -/

/-- Claim C6 (amended): across every engine command, an existing order
object's type, side, price and instrument never change; its quantity may
change, and its id either stays equal or is set to -1 (which happens exactly
to the target of a modify, by the retag in `Book.modify_order`). -/
theorem C6_frame (st : EngSt) (op : Op) (r : Nat)
    (hr : r < st.book.orders.length) :
    (getOrd (step st op).book.orders r).order_type =
      (getOrd st.book.orders r).order_type ∧
    (getOrd (step st op).book.orders r).order_side =
      (getOrd st.book.orders r).order_side ∧
    (getOrd (step st op).book.orders r).price =
      (getOrd st.book.orders r).price ∧
    (getOrd (step st op).book.orders r).stock =
      (getOrd st.book.orders r).stock ∧
    ((getOrd (step st op).book.orders r).order_id =
        (getOrd st.book.orders r).order_id ∨
      (getOrd (step st op).book.orders r).order_id = -1) := by
  cases op with
  | limit sd pp qq =>
    unfold step
    dsimp only
    split_ifs with hq0
    · exact ⟨rfl, rfl, rfl, rfl, Or.inl rfl⟩
    · have hfo := add_order_fields_old st.book (st.uid + 1) OrderType.LIMIT sd
        qq pp "STOCK" r hr
      exact ⟨hfo.2.1, hfo.2.2.1, hfo.2.2.2.1, hfo.2.2.2.2, Or.inl hfo.1⟩
  | market sd qq =>
    unfold step
    dsimp only
    split_ifs with hq0
    · exact ⟨rfl, rfl, rfl, rfl, Or.inl rfl⟩
    · have h1 := fields_setQty
        (add_order st.book (st.uid + 1) OrderType.MARKET sd qq ⊤ "STOCK").1.orders
        (add_order st.book (st.uid + 1) OrderType.MARKET sd qq ⊤ "STOCK").2.1 0 r
      have h2 := add_order_fields_old st.book (st.uid + 1) OrderType.MARKET sd
        qq ⊤ "STOCK" r hr
      exact ⟨h1.2.1.trans h2.2.1, h1.2.2.1.trans h2.2.2.1,
        h1.2.2.2.1.trans h2.2.2.2.1, h1.2.2.2.2.trans h2.2.2.2.2,
        Or.inl (h1.1.trans h2.1)⟩
  | cancel i =>
    unfold step
    dsimp only
    cases hl : lookupMap st.orders_map i with
    | none => exact ⟨rfl, rfl, rfl, rfl, Or.inl rfl⟩
    | some rr =>
      dsimp only
      split_ifs with hq0
      · exact ⟨rfl, rfl, rfl, rfl, Or.inl rfl⟩
      · have h1 := fields_setQty st.book.orders rr 0 r
        exact ⟨h1.2.1, h1.2.2.1, h1.2.2.2.1, h1.2.2.2.2, Or.inl h1.1⟩
  | modify i pp qq =>
    unfold step
    dsimp only
    split_ifs with hq0
    · exact ⟨rfl, rfl, rfl, rfl, Or.inl rfl⟩
    · cases hl : lookupMap st.orders_map i with
      | none => exact ⟨rfl, rfl, rfl, rfl, Or.inl rfl⟩
      | some rr =>
        dsimp only
        split_ifs with hact
        · exact ⟨rfl, rfl, rfl, rfl, Or.inl rfl⟩
        · show (getOrd (modify_order st.book rr qq pp).1.orders r).order_type
              = _ ∧ _
          rw [modify_order_eq]
          by_cases hre : r = rr
          · subst hre
            have hrr : r < st.book.orders.length := lt_length_of_qty_ne hact
            have hfo := add_order_fields_old
              (delete_order
                { st.book with
                  orders := st.book.orders.set r
                    { getOrd st.book.orders r with order_id := -1 } } r)
              (getOrd st.book.orders r).order_id
              (getOrd st.book.orders r).order_type
              (getOrd st.book.orders r).order_side qq pp
              (getOrd st.book.orders r).stock r
              (by rw [retag_delete_len]; exact hr)
            have hself := retag_delete_get_self st.book r hrr
            exact ⟨by rw [hfo.2.1, hself], by rw [hfo.2.2.1, hself],
              by rw [hfo.2.2.2.1, hself], by rw [hfo.2.2.2.2, hself],
              Or.inr (by rw [hfo.1, hself])⟩
          · have hfo := add_order_fields_old
              (delete_order
                { st.book with
                  orders := st.book.orders.set rr
                    { getOrd st.book.orders rr with order_id := -1 } } rr)
              (getOrd st.book.orders rr).order_id
              (getOrd st.book.orders rr).order_type
              (getOrd st.book.orders rr).order_side qq pp
              (getOrd st.book.orders rr).stock r
              (by rw [retag_delete_len]; exact hr)
            have hne := retag_delete_get_ne st.book rr r hre
            exact ⟨by rw [hfo.2.1, hne], by rw [hfo.2.2.1, hne],
              by rw [hfo.2.2.2.1, hne], by rw [hfo.2.2.2.2, hne],
              Or.inl (by rw [hfo.1, hne])⟩
  | render => exact ⟨rfl, rfl, rfl, rfl, Or.inl rfl⟩

/-- Engine state for the C6 witness and counterexample: one resting bid. -/
def stC6 : EngSt := run [Op.limit Side.BUY 10 100]

theorem C6_witness :
    (getOrd (step stC6 (Op.cancel 1)).book.orders 0).order_type =
      (getOrd stC6.book.orders 0).order_type ∧
    (getOrd (step stC6 (Op.cancel 1)).book.orders 0).order_side =
      (getOrd stC6.book.orders 0).order_side ∧
    (getOrd (step stC6 (Op.cancel 1)).book.orders 0).price =
      (getOrd stC6.book.orders 0).price ∧
    (getOrd (step stC6 (Op.cancel 1)).book.orders 0).stock =
      (getOrd stC6.book.orders 0).stock ∧
    ((getOrd (step stC6 (Op.cancel 1)).book.orders 0).order_id =
        (getOrd stC6.book.orders 0).order_id ∨
      (getOrd (step stC6 (Op.cancel 1)).book.orders 0).order_id = -1) :=
  C6_frame stC6 (Op.cancel 1) 0 (by decide)

/-- Claim C6 is false on the code as stated: the modify command changes its
target's identity.  The order created with id 1 has id -1 after
`Book.modify_order` retags it. -/
theorem C6_cex :
    (getOrd stC6.book.orders 0).order_id = 1 ∧
    (getOrd (step stC6 (Op.modify 1 10 80)).book.orders 0).order_id = -1 := by
  decide


/-! ### Claim C5 -/

/-- Book-level price-time priority: if a submission reduced the quantity of a
resting opposite order `c`, then every real resting order `a` at the same
price with a smaller id ended the call fully filled. -/
theorem add_order_priority (b : BookSt) (h : INV b) (oid : Int)
    (t : OrderType) (sd : Side) (q : Int) (p : Price) (stk : String)
    (a c : Nat) (ha : a ∈ oppQueue b sd) (hc : c ∈ oppQueue b sd)
    (hprice : (getOrd b.orders a).price = (getOrd b.orders c).price)
    (hid : (getOrd b.orders a).order_id < (getOrd b.orders c).order_id)
    (hqa : 0 < (getOrd b.orders a).quantity)
    (hqc : 0 < (getOrd b.orders c).quantity)
    (hdec : (getOrd (add_order b oid t sd q p stk).1.orders c).quantity <
      (getOrd b.orders c).quantity) :
    (getOrd (add_order b oid t sd q p stk).1.orders a).quantity = 0 := by
  have hfb : b.orders.length ∉ b.buy_queue :=
    fun hm => absurd (h.validB _ hm) (lt_irrefl _)
  have hfs : b.orders.length ∉ b.sell_queue :=
    fun hm => absurd (h.validS _ hm) (lt_irrefl _)
  have hne : a ≠ c := by
    intro he
    rw [he] at hid
    exact absurd hid (lt_irrefl _)
  cases sd with
  | BUY =>
    have hvala : a < b.orders.length := h.validS a ha
    have hvalc : c < b.orders.length := h.validS c hc
    have hidna : (getOrd b.orders a).order_id ≠ -1 := by
      intro hx
      have := h.negid a hvala hx
      omega
    have hidnc : (getOrd b.orders c).order_id ≠ -1 := by
      intro hx
      have := h.negid c hvalc hx
      omega
    have hpos : List.Sublist [a, c] b.sell_queue := by
      rcases pair_sublist ha hc hne with h1 | h1
      · exact h1
      · exfalso
        have hq2 := (List.pairwise_iff_forall_sublist.mp h.sortS) h1
        rcases hq2.2 hprice.symm with h2 | h2 | h2
        · exact hidnc h2
        · exact hidna h2
        · omega
    cases t with
    | LIMIT =>
      rw [(add_order_limit_buy_eq b oid q p stk).1] at hdec ⊢
      have hga : getOrd (b.orders ++ [(⟨oid, .LIMIT, .BUY, q, p, stk⟩ : Order)]) a
          = getOrd b.orders a := getOrd_append_lt hvala
      have hgc : getOrd (b.orders ++ [(⟨oid, .LIMIT, .BUY, q, p, stk⟩ : Order)]) c
          = getOrd b.orders c := getOrd_append_lt hvalc
      exact match_loop_priority buyCross b.sell_queue
        (b.orders ++ [⟨oid, .LIMIT, .BUY, q, p, stk⟩]) b.orders.length
        h.nodupS hfs a c hpos (by rw [hgc]; exact hdec) (by rw [hga]; exact hqa)
    | MARKET =>
      rw [(add_order_market_buy_eq b oid q p stk).1, market_loop_eq] at hdec ⊢
      have hga : getOrd (b.orders ++ [(⟨oid, .MARKET, .BUY, q, p, stk⟩ : Order)]) a
          = getOrd b.orders a := getOrd_append_lt hvala
      have hgc : getOrd (b.orders ++ [(⟨oid, .MARKET, .BUY, q, p, stk⟩ : Order)]) c
          = getOrd b.orders c := getOrd_append_lt hvalc
      exact match_loop_priority (fun _ _ => true) b.sell_queue
        (b.orders ++ [⟨oid, .MARKET, .BUY, q, p, stk⟩]) b.orders.length
        h.nodupS hfs a c hpos (by rw [hgc]; exact hdec) (by rw [hga]; exact hqa)
  | SELL =>
    have hvala : a < b.orders.length := h.validB a ha
    have hvalc : c < b.orders.length := h.validB c hc
    have hidna : (getOrd b.orders a).order_id ≠ -1 := by
      intro hx
      have := h.negid a hvala hx
      omega
    have hidnc : (getOrd b.orders c).order_id ≠ -1 := by
      intro hx
      have := h.negid c hvalc hx
      omega
    have hpos : List.Sublist [a, c] b.buy_queue := by
      rcases pair_sublist ha hc hne with h1 | h1
      · exact h1
      · exfalso
        have hq2 := (List.pairwise_iff_forall_sublist.mp h.sortB) h1
        rcases hq2.2 hprice.symm with h2 | h2 | h2
        · exact hidnc h2
        · exact hidna h2
        · omega
    cases t with
    | LIMIT =>
      rw [(add_order_limit_sell_eq b oid q p stk).1] at hdec ⊢
      have hga : getOrd (b.orders ++ [(⟨oid, .LIMIT, .SELL, q, p, stk⟩ : Order)]) a
          = getOrd b.orders a := getOrd_append_lt hvala
      have hgc : getOrd (b.orders ++ [(⟨oid, .LIMIT, .SELL, q, p, stk⟩ : Order)]) c
          = getOrd b.orders c := getOrd_append_lt hvalc
      exact match_loop_priority sellCross b.buy_queue
        (b.orders ++ [⟨oid, .LIMIT, .SELL, q, p, stk⟩]) b.orders.length
        h.nodupB hfb a c hpos (by rw [hgc]; exact hdec) (by rw [hga]; exact hqa)
    | MARKET =>
      rw [(add_order_market_sell_eq b oid q p stk).1, market_loop_eq] at hdec ⊢
      have hga : getOrd (b.orders ++ [(⟨oid, .MARKET, .SELL, q, p, stk⟩ : Order)]) a
          = getOrd b.orders a := getOrd_append_lt hvala
      have hgc : getOrd (b.orders ++ [(⟨oid, .MARKET, .SELL, q, p, stk⟩ : Order)]) c
          = getOrd b.orders c := getOrd_append_lt hvalc
      exact match_loop_priority (fun _ _ => true) b.buy_queue
        (b.orders ++ [⟨oid, .MARKET, .SELL, q, p, stk⟩]) b.orders.length
        h.nodupB hfb a c hpos (by rw [hgc]; exact hdec) (by rw [hga]; exact hqa)

/-- Claim C5: price-time priority.  In any reachable state, for every limit
or market submission, among real resting orders on the opposite side at equal
price, if the higher-id order had its quantity reduced by the call, then the
lower-id order was matched first — it ended the call fully filled. -/
theorem C5_price_time (ops : List Op) (op : Op) (sd : Side)
    (hop : submitSide op = some sd) (a c : Nat)
    (ha : a ∈ oppQueue (run ops).book sd) (hc : c ∈ oppQueue (run ops).book sd)
    (hprice : (getOrd (run ops).book.orders a).price =
      (getOrd (run ops).book.orders c).price)
    (hid : (getOrd (run ops).book.orders a).order_id <
      (getOrd (run ops).book.orders c).order_id)
    (hqa : 0 < (getOrd (run ops).book.orders a).quantity)
    (hqc : 0 < (getOrd (run ops).book.orders c).quantity)
    (hdec : (getOrd (step (run ops) op).book.orders c).quantity <
      (getOrd (run ops).book.orders c).quantity) :
    (getOrd (step (run ops) op).book.orders a).quantity = 0 := by
  have hINV := (run_EngINV ops).2
  cases op with
  | limit sd2 pp qq =>
    have hsd : sd2 = sd := by simpa [submitSide] using hop
    subst hsd
    unfold step at hdec ⊢
    dsimp only at hdec ⊢
    by_cases hq0 : qq = 0
    · rw [if_pos hq0] at hdec
      exact absurd hdec (lt_irrefl _)
    · rw [if_neg hq0] at hdec ⊢
      dsimp only at hdec ⊢
      exact add_order_priority (run ops).book hINV ((run ops).uid + 1)
        OrderType.LIMIT sd2 qq pp "STOCK" a c ha hc hprice hid hqa hqc hdec
  | market sd2 qq =>
    have hsd : sd2 = sd := by simpa [submitSide] using hop
    subst hsd
    unfold step at hdec ⊢
    dsimp only at hdec ⊢
    by_cases hq0 : qq = 0
    · rw [if_pos hq0] at hdec
      exact absurd hdec (lt_irrefl _)
    · rw [if_neg hq0] at hdec ⊢
      dsimp only at hdec ⊢
      unfold delete_order at hdec ⊢
      dsimp only at hdec ⊢
      have href := add_order_ref (run ops).book ((run ops).uid + 1)
        OrderType.MARKET sd2 qq ⊤ "STOCK"
      have hvala : a < (run ops).book.orders.length := by
        cases sd2 with
        | BUY => exact hINV.validS a ha
        | SELL => exact hINV.validB a ha
      have hvalc : c < (run ops).book.orders.length := by
        cases sd2 with
        | BUY => exact hINV.validS c hc
        | SELL => exact hINV.validB c hc
      have hane : a ≠ (add_order (run ops).book ((run ops).uid + 1)
          OrderType.MARKET sd2 qq ⊤ "STOCK").2.1 := by
        rw [href]
        omega
      have hcne : c ≠ (add_order (run ops).book ((run ops).uid + 1)
          OrderType.MARKET sd2 qq ⊤ "STOCK").2.1 := by
        rw [href]
        omega
      rw [getOrd_setQty_ne hcne] at hdec
      rw [getOrd_setQty_ne hane]
      exact add_order_priority (run ops).book hINV ((run ops).uid + 1)
        OrderType.MARKET sd2 qq ⊤ "STOCK" a c ha hc hprice hid hqa hqc hdec
  | cancel i => simp [submitSide] at hop
  | modify i pp qq => simp [submitSide] at hop
  | render => simp [submitSide] at hop

/-- Setup for the C5 witness: two resting asks at price 10 (ids 1 then 2),
hit by a buy of 60 that fills id 1 completely and id 2 partially. -/
def opsC5 : List Op := [Op.limit Side.SELL 10 30, Op.limit Side.SELL 10 40]

theorem C5_witness :
    (getOrd (step (run opsC5) (Op.limit Side.BUY 10 60)).book.orders 0).quantity
      = 0 :=
  C5_price_time opsC5 (Op.limit Side.BUY 10 60) Side.BUY rfl 0 1 (by decide)
    (by decide) (by decide) (by decide) (by decide) (by decide) (by decide)


end Pyome
